import Mathlib

/-!
Verification of the ring leader-election simulator (uni_sync / uni_async).

This file gives a shallow embedding of the two protocol variants:

* the asynchronous variant (`src/uni_async/{types,network,agent,model}.py`):
  per-agent state machines driven one message per tick by a delay-scheduling
  network, with commit/reveal cheater detection and a global abort flag;
* the synchronous variant (`src/uni_sync/{types,agent,model}.py`):
  round-based double-buffered delivery, full inbox drain per tick.

Python `random.randint` calls are modelled by an explicit oracle: each step
consumes values from a caller-supplied list of naturals, reduced into the
requested interval.  Any actual sequence of random draws corresponds to some
oracle, so quantifying over oracles covers every run of the program.

Python exceptions (the `AsyncMessageType.CHOOSE` attribute lookup, which fails
because the enum defines only four members; `randint` on an empty range; a
list index out of range) terminate the whole simulation, so a step that raises
produces no successor state: steps return `Except StepError`, and reachability
closes only over `.ok` steps — exactly the states at which the driver can
observe the model between `step()` calls.
-/

/-- Errors raised by a step of the asynchronous or synchronous model.  Each
constructor corresponds to a concrete Python exception site. -/
inductive StepError where
  /-- `AsyncMessageType.CHOOSE` raised `AttributeError` while the REVEAL
  finalization built its CHOOSE broadcast (agent.py line 257); the payload
  records the leader id computed just before the crash (agent.py line 250). -/
  | chooseAttributeError (leader_id : ℕ)
  /-- `AsyncMessageType.CHOOSE` raised `AttributeError` while `__on_choose`
  built the acknowledgement for the starter (agent.py line 288). -/
  | chooseAckAttributeError
  /-- `AsyncMessageType.CHOOSE` raised `AttributeError` while the `match` in
  `step` evaluated the `case AsyncMessageType.CHOOSE` pattern. -/
  | chooseCaseAttributeError
  /-- `random.randint(a, b)` with `b < a` raised `ValueError`. -/
  | randintEmptyRange
  /-- a list index was out of range. -/
  | indexError
deriving DecidableEq

instance {ε α : Type} [DecidableEq ε] [DecidableEq α] :
    DecidableEq (Except ε α) := fun a b =>
  match a, b with
  | .ok x, .ok y =>
    if h : x = y then isTrue (by rw [h])
    else isFalse (by intro hc; cases hc; exact h rfl)
  | .error x, .error y =>
    if h : x = y then isTrue (by rw [h])
    else isFalse (by intro hc; cases hc; exact h rfl)
  | .ok _, .error _ => isFalse (by intro hc; cases hc)
  | .error _, .ok _ => isFalse (by intro hc; cases hc)

/-- The four members of the `AsyncMessageType` enum as defined in
`src/uni_async/types.py` (lines 6-10).  Note there is no CHOOSE member. -/
inductive AsyncMessageType where
  | COLLECT
  | SETUP
  | COMMIT
  | REVEAL
deriving DecidableEq

/-- The list of members defined on the `AsyncMessageType` enum in types.py. -/
def async_message_type_members : List AsyncMessageType :=
  [.COLLECT, .SETUP, .COMMIT, .REVEAL]

/-- The five enum member names referenced as `AsyncMessageType.<name>` by
`src/uni_async/agent.py` (COLLECT, SETUP, COMMIT, REVEAL, CHOOSE). -/
inductive AgentEnumRef where
  | COLLECT
  | SETUP
  | COMMIT
  | REVEAL
  | CHOOSE
deriving DecidableEq

/-- Python attribute lookup of an `AsyncMessageType` member: resolves the four
defined members and fails (AttributeError, modelled as `none`) on CHOOSE. -/
def resolve_enum_member : AgentEnumRef → Option AsyncMessageType
  | .COLLECT => some .COLLECT
  | .SETUP => some .SETUP
  | .COMMIT => some .COMMIT
  | .REVEAL => some .REVEAL
  | .CHOOSE => none

/-- Payload of an asynchronous protocol message (the `payload` dicts built in
agent.py).  The `choose` shape is the dict built at agent.py lines 255-265;
building it in Python raises before the dict ever exists, because its
`message_type` field needs the missing CHOOSE enum member. -/
inductive AsyncPayload where
  | collect (sender_id : ℕ) (id_set : Finset ℕ)
  | setup (sender_id : ℕ) (id_set : Finset ℕ)
  | commit (sender_id : ℕ) (N_rand : ℕ)
  | reveal (sender_id : ℕ) (id_set : Finset ℕ) (pairs : List (ℕ × ℕ))
      (last_author : Option ℕ)
  | choose (sender_id : ℕ) (id_set : Finset ℕ) (pairs : List (ℕ × ℕ))
      (leader : ℕ)
deriving DecidableEq

/-- Transport record of the async network (types.py `PendingMessage`). -/
structure PendingMessage where
  deliver_at : ℕ
  seq : ℕ
  source : ℕ
  dest : ℕ
  payload : AsyncPayload
deriving DecidableEq

/-- Local state of one `UniAsyncAgent` (agent.py `__init__`).  The ring links
`predecessor`/`successor` are represented arithmetically: the model wires
`successor[i] = agents[(i+1) % N]` and `predecessor[i] = agents[(i-1) % N]`. -/
structure UniAsyncAgentState where
  leader : Option ℕ
  highest : ℤ
  phase : ℕ
  id_set : Finset ℕ
  N_rand_commit : Option ℕ
  N_rand_reveal : Option ℕ
  commit_from_predecessor : Option ℕ
  commit_records : List (ℕ × ℕ)
  inbox : List AsyncPayload
  is_malicious : Bool
deriving DecidableEq

/-- Fresh agent state as produced by `UniAsyncAgent.__init__`. -/
def UniAsyncAgentState.mkInit : UniAsyncAgentState :=
  { leader := none
    highest := -1
    phase := 0
    id_set := ∅
    N_rand_commit := none
    N_rand_reveal := none
    commit_from_predecessor := none
    commit_records := []
    inbox := []
    is_malicious := false }

instance : Inhabited UniAsyncAgentState := ⟨UniAsyncAgentState.mkInit⟩

/-- Global state of a `UniAsyncModel` together with its `UniAsyncNetwork`
(queue and seq counter) and the oracle-independent configuration. -/
structure AsyncModelState where
  num_agents : ℕ
  max_message_delay : ℕ
  ticks : ℕ
  abort_flag : Bool
  starter : Option ℕ
  received_leader_reports : Finset ℕ
  agents : List UniAsyncAgentState
  queue : List PendingMessage
  seq : ℕ
deriving DecidableEq

/-- Agent at ring position `i` (the model's flat `agent_list`). -/
def getA (m : AsyncModelState) (i : ℕ) : UniAsyncAgentState :=
  m.agents.getD i default

/-- Replace the agent at ring position `i`. -/
def setA (m : AsyncModelState) (i : ℕ) (a : UniAsyncAgentState) :
    AsyncModelState :=
  { m with agents := m.agents.set i a }

/-- Successor id in the ring: `agents[(i + 1) % N]`. -/
def succ_of (m : AsyncModelState) (i : ℕ) : ℕ :=
  (i + 1) % m.num_agents

/-- Predecessor id in the ring: `agents[(i - 1) % N]`. -/
def pred_of (m : AsyncModelState) (i : ℕ) : ℕ :=
  (i + m.num_agents - 1) % m.num_agents

/-- Python dict lookup on an association list (`pid in d` / `d[pid]`). -/
def dlookup (k : ℕ) (l : List (ℕ × ℕ)) : Option ℕ :=
  (l.find? (fun p => p.1 = k)).map (fun p => p.2)

/-- Python dict assignment `d[k] = v`: update in place if the key exists,
otherwise append. -/
def dinsert (k v : ℕ) (l : List (ℕ × ℕ)) : List (ℕ × ℕ) :=
  if (l.find? (fun p => p.1 = k)).isSome then
    l.map (fun p => if p.1 = k then (k, v) else p)
  else l ++ [(k, v)]

/-- Insert into an ascending-sorted list, keeping it sorted. -/
def insort_le (x : ℕ) : List ℕ → List ℕ
  | [] => [x]
  | y :: ys => if x ≤ y then x :: y :: ys else y :: insort_le x ys

/-- Insertion sort (ascending). -/
def isort (l : List ℕ) : List ℕ := l.foldr insort_le []

lemma insort_le_perm (x : ℕ) (l : List ℕ) :
    List.Perm (insort_le x l) (x :: l) := by
  induction l with
  | nil => rfl
  | cons y ys ih =>
    rw [insort_le]
    split
    · rfl
    · exact (List.Perm.cons y ih).trans (List.Perm.swap x y ys)

lemma isort_perm (l : List ℕ) : List.Perm (isort l) l := by
  induction l with
  | nil => rfl
  | cons a l ih =>
    rw [isort, List.foldr_cons]
    exact (insort_le_perm a (isort l)).trans (List.Perm.cons a ih)

lemma insort_le_sorted (x : ℕ) {l : List ℕ} (h : l.Sorted (· ≤ ·)) :
    (insort_le x l).Sorted (· ≤ ·) := by
  induction l with
  | nil => exact List.sorted_singleton x
  | cons y ys ih =>
    rw [insort_le]
    rw [List.sorted_cons] at h
    split
    · rename_i hxy
      rw [List.sorted_cons]
      refine ⟨?_, List.sorted_cons.2 h⟩
      intro b hb
      rcases List.mem_cons.1 hb with rfl | hb
      · exact hxy
      · exact le_trans hxy (h.1 b hb)
    · rename_i hxy
      rw [List.sorted_cons]
      refine ⟨?_, ih h.2⟩
      intro b hb
      have hb2 := (insort_le_perm x ys).mem_iff.1 hb
      rcases List.mem_cons.1 hb2 with rfl | hb2
      · exact le_of_not_le hxy
      · exact h.1 b hb2

lemma isort_sorted (l : List ℕ) : (isort l).Sorted (· ≤ ·) := by
  induction l with
  | nil => exact List.sorted_nil
  | cons a l ih =>
    rw [isort, List.foldr_cons]
    exact insort_le_sorted a ih

/-- Sort a multiset of naturals ascending; this is an executable (and
kernel-reducible) implementation of Python `sorted`. -/
def msort (s : Multiset ℕ) : List ℕ :=
  Quot.liftOn s isort (fun l₁ l₂ h =>
    List.eq_of_perm_of_sorted
      ((isort_perm l₁).trans (h.trans (isort_perm l₂).symm))
      (isort_sorted l₁) (isort_sorted l₂))

/-- Python `sorted(id_set, reverse=True)`. -/
def sort_desc (s : Finset ℕ) : List ℕ :=
  (msort s.1).reverse

/-- Oracle-driven `random.randint(0, N - 1)`; total for the ring sizes
`N ≥ 1` at which the model ever draws (for `N = 0` the model constructor
itself cannot complete, so the junk value `n % 0 = n` is unreachable). -/
def draw_commit (N : ℕ) (o : List ℕ) : ℕ × List ℕ :=
  (o.headD 0 % N, o.tail)

/-- Oracle-driven `random.randint(1, N - 1)` used for the malicious offset;
raises `ValueError` when the range is empty (`N ≤ 1`), as Python does. -/
def draw_diff (N : ℕ) (o : List ℕ) :
    Except StepError (ℕ × List ℕ) :=
  if N ≤ 1 then .error .randintEmptyRange
  else .ok (1 + o.headD 0 % (N - 1), o.tail)

/-- Ordered insertion into the network's priority queue; the queue is kept
sorted by `(deliver_at, seq)`, which is the order `heapq` pops
`PendingMessage` records (the dataclass orders lexicographically and `seq`
is unique). -/
def insertPM (pm : PendingMessage) : List PendingMessage → List PendingMessage
  | [] => [pm]
  | q :: rest =>
    if pm.deliver_at < q.deliver_at ∨
        (pm.deliver_at = q.deliver_at ∧ pm.seq < q.seq) then
      pm :: q :: rest
    else q :: insertPM pm rest

/-- `UniAsyncNetwork.send`: draw `delay = max(1, randint(1, max_delay))` from
the oracle and enqueue a `PendingMessage` for `ticks + delay`. -/
def net_send (m : AsyncModelState) (src dst : ℕ) (p : AsyncPayload)
    (o : List ℕ) : AsyncModelState × List ℕ :=
  let d := max 1 (1 + o.headD 0 % m.max_message_delay)
  ({ m with
      queue := insertPM
        { deliver_at := m.ticks + d, seq := m.seq, source := src,
          dest := dst, payload := p } m.queue
      seq := m.seq + 1 }, o.tail)

/-- `UniAsyncAgent.send_to_successor` (the successor link is always set after
model construction, so the `if self.successor` guard always passes). -/
def send_to_successor (m : AsyncModelState) (i : ℕ) (p : AsyncPayload)
    (o : List ℕ) : AsyncModelState × List ℕ :=
  net_send m i (succ_of m i) p o

/-- Append a delivered payload to an agent's inbox. -/
def push_inbox (ags : List UniAsyncAgentState) (d : ℕ) (p : AsyncPayload) :
    List UniAsyncAgentState :=
  ags.set d { ags.getD d default with inbox := (ags.getD d default).inbox ++ [p] }

/-- Pop every queue record with `deliver_at ≤ t` (they form a prefix of the
sorted queue) in `(deliver_at, seq)` order, appending each payload to its
destination's inbox (`UniAsyncNetwork.step`). -/
def deliver_go (t : ℕ) : List PendingMessage → List UniAsyncAgentState →
    List PendingMessage × List UniAsyncAgentState
  | [], ags => ([], ags)
  | pm :: rest, ags =>
    if pm.deliver_at ≤ t then deliver_go t rest (push_inbox ags pm.dest pm.payload)
    else (pm :: rest, ags)

/-- The network delivery phase at the start of a model tick. -/
def deliver_due (m : AsyncModelState) : AsyncModelState :=
  let r := deliver_go m.ticks m.queue m.agents
  { m with queue := r.1, agents := r.2 }

/-- `UniAsyncAgent.abort_protocol`: set the global abort flag and record the
punish state (null leader) on the detecting agent. -/
def abort_state (m : AsyncModelState) (i : ℕ) : AsyncModelState :=
  setA { m with abort_flag := true } i { getA m i with leader := none }

/-- `UniAsyncAgent.__on_collect`. -/
def on_collect (m : AsyncModelState) (i : ℕ) (originator_id : ℕ)
    (id_set : Finset ℕ) (o : List ℕ) :
    Except StepError (AsyncModelState × List ℕ) :=
  let a := getA m i
  if (originator_id : ℤ) > a.highest ∧ a.phase ≤ 1 then
    .ok (send_to_successor (setA m i { a with highest := (originator_id : ℤ) })
      i (.collect originator_id (insert i id_set)) o)
  else if originator_id = i ∧ id_set.card = m.num_agents then
    .ok (send_to_successor (setA m i { a with phase := 2, id_set := id_set })
      i (.setup originator_id id_set) o)
  else .ok (m, o)

/-- The tail of `UniAsyncAgent.__on_setup` after the commit branch: forward
the SETUP unchanged if this agent is not the originator, otherwise enter the
REVEAL phase and send the initial REVEAL message. -/
def setup_tail (m : AsyncModelState) (i originator_id : ℕ) (id_set : Finset ℕ)
    (o : List ℕ) : AsyncModelState × List ℕ :=
  if i ≠ originator_id then
    send_to_successor m i (.setup originator_id id_set) o
  else
    let a := getA m i
    send_to_successor (setA m i { a with phase := 3 }) i
      (.reveal originator_id a.id_set [] none) o

/-- The membership adoption of `UniAsyncAgent.__on_setup` (agent.py lines
147-148): take the message's id set when none is known locally. -/
def setup_fill_id_set (a : UniAsyncAgentState) (id_set : Finset ℕ) :
    UniAsyncAgentState :=
  if a.id_set = ∅ then { a with id_set := id_set } else a

/-- The commitment choice of `UniAsyncAgent.__on_setup` (agent.py lines
151-161): enter phase 2, draw `N_rand_commit`, and set `N_rand_reveal`
(offset by a nonzero `diff` modulo `N` when malicious).  Returns the updated
agent together with the drawn commitment (the `N_rand` sent in the COMMIT
message) and the remaining oracle. -/
def setup_commit_update (N : ℕ) (a1 : UniAsyncAgentState) (o : List ℕ) :
    Except StepError (UniAsyncAgentState × ℕ × List ℕ) :=
  let dc := draw_commit N o
  if a1.is_malicious then
    (draw_diff N dc.2).map (fun dd =>
      ({ a1 with
          phase := 2
          N_rand_commit := some dc.1
          N_rand_reveal := some ((dc.1 + dd.1) % N) }, dc.1, dd.2))
  else
    .ok ({ a1 with
        phase := 2
        N_rand_commit := some dc.1
        N_rand_reveal := some dc.1 }, dc.1, dc.2)

/-- `UniAsyncAgent.__on_setup`. -/
def on_setup (m : AsyncModelState) (i : ℕ) (originator_id : ℕ)
    (id_set : Finset ℕ) (o : List ℕ) :
    Except StepError (AsyncModelState × List ℕ) :=
  let a := getA m i
  if (originator_id : ℤ) ≠ a.highest then .ok (m, o)
  else
    let a1 := setup_fill_id_set a id_set
    if a1.phase < 2 ∨ (a1.is_malicious ∧ i = originator_id) then
      (setup_commit_update m.num_agents a1 o).map
        (fun r =>
          let s := send_to_successor (setA m i r.1) i (.commit i r.2.1) r.2.2
          setup_tail s.1 i originator_id id_set s.2)
    else
      .ok (setup_tail (setA m i a1) i originator_id id_set o)

/-- `UniAsyncAgent.__on_commit`. -/
def on_commit (m : AsyncModelState) (i : ℕ) (sender_id N_rand : ℕ)
    (o : List ℕ) : Except StepError (AsyncModelState × List ℕ) :=
  if sender_id ≠ pred_of m i then .ok (m, o)
  else
    let a := getA m i
    .ok (send_to_successor
      (setA m i { a with
        commit_from_predecessor := some N_rand
        commit_records := dinsert sender_id N_rand a.commit_records })
      i (.commit sender_id N_rand) o)

/-- The append step of `UniAsyncAgent.__on_reveal` (agent.py lines 230-235):
append `(own_id, N_rand_reveal)` unless a pair for this agent is already
present, lazily drawing a commitment if none exists yet.  Returns the updated
model, the updated pairs and the remaining oracle. -/
def reveal_append (m : AsyncModelState) (i : ℕ) (pairs : List (ℕ × ℕ))
    (o : List ℕ) : AsyncModelState × List (ℕ × ℕ) × List ℕ :=
  if pairs.all (fun pr => pr.1 ≠ i) then
    let a := getA m i
    match a.N_rand_reveal with
    | some r => (m, pairs ++ [(i, r)], o)
    | none =>
      match a.N_rand_commit with
      | some c =>
        (setA m i { a with N_rand_reveal := some c }, pairs ++ [(i, c)], o)
      | none =>
        let dc := draw_commit m.num_agents o
        (setA m i { a with
            N_rand_commit := some dc.1
            N_rand_reveal := some dc.1 }, pairs ++ [(i, dc.1)], dc.2)
  else (m, pairs, o)

/-- The forwarding and finalization tail of `UniAsyncAgent.__on_reveal`
(agent.py lines 230-265): run the append step, forward the REVEAL with
`last_author = own_id`, and, if this agent is the originator and the pairs are
complete, compute the leader and attempt the CHOOSE broadcast — which raises
`AttributeError` because `AsyncMessageType` has no CHOOSE member, discarding
the whole step. -/
def reveal_rest (m : AsyncModelState) (i : ℕ) (originator_id : ℕ)
    (id_set : Finset ℕ) (pairs : List (ℕ × ℕ)) (o : List ℕ) :
    Except StepError (AsyncModelState × List ℕ) :=
  let ap := reveal_append m i pairs o
  let s := send_to_successor ap.1 i
    (.reveal originator_id id_set ap.2.1 (some i)) ap.2.2
  if i = originator_id ∧ ap.2.1.length = s.1.num_agents then
    let total := (ap.2.1.map (fun pr => pr.2)).sum
    let idx := total % s.1.num_agents
    let lst := sort_desc id_set
    if h : idx < lst.length then .error (.chooseAttributeError (lst.get ⟨idx, h⟩))
    else .error .indexError
  else .ok s

/-- `UniAsyncAgent.__on_reveal`. -/
def on_reveal (m : AsyncModelState) (i : ℕ) (originator_id : ℕ)
    (id_set : Finset ℕ) (pairs : List (ℕ × ℕ)) (last_author : Option ℕ)
    (o : List ℕ) : Except StepError (AsyncModelState × List ℕ) :=
  let a := getA m i
  if a.id_set = ∅ ∨ id_set ≠ a.id_set then .ok (m, o)
  else if (pairs.find? (fun pr =>
      match dlookup pr.1 a.commit_records with
      | some c => decide (pr.2 ≠ c)
      | none => false)).isSome then
    .ok (abort_state m i, o)
  else if last_author = some (pred_of m i) then
    if pairs = [] ∨ a.commit_from_predecessor = none then .ok (m, o)
    else if (pairs.getLastD (0, 0)).2 ≠ a.commit_from_predecessor.getD 0 then
      .ok (abort_state m i, o)
    else reveal_rest m i originator_id id_set pairs o
  else reveal_rest m i originator_id id_set pairs o

/-- `UniAsyncModel.register_leader_report`. -/
def register_leader_report (m : AsyncModelState) (agent_id : ℕ) :
    AsyncModelState :=
  { m with received_leader_reports := insert agent_id m.received_leader_reports }

/-- `UniAsyncAgent.__on_choose`, modelled over the fields the handler reads
from the payload.  This handler is dead code in every run: no CHOOSE message
can ever be built (the enum member is missing), but the body itself is
translated faithfully, including the `AttributeError` a non-starter hits when
building the acknowledgement (agent.py lines 284-293). -/
def on_choose (m : AsyncModelState) (i : ℕ) (sender_id leader_id : ℕ)
    (id_set : Finset ℕ) (pairs : List (ℕ × ℕ)) (o : List ℕ) :
    Except StepError (AsyncModelState × List ℕ) :=
  let a := getA m i
  if a.id_set ≠ id_set then .ok (m, o)
  else
    let m1 := setA m i { a with leader := some leader_id, phase := 5 }
    let s := send_to_successor m1 i (.choose sender_id id_set pairs leader_id) o
    let m2 := if m1.starter = some i then register_leader_report s.1 i else s.1
    if m1.starter.isSome ∧ m1.starter ≠ some i then .error .chooseAckAttributeError
    else .ok (m2, s.2)

/-- `UniAsyncAgent.step`: on global abort record the punish state; otherwise
pop one inbox message and dispatch on its type.  A message whose type is none
of COLLECT/SETUP/COMMIT/REVEAL would make the `match` evaluate the
`case AsyncMessageType.CHOOSE` pattern, raising `AttributeError`. -/
def async_agent_step (m : AsyncModelState) (i : ℕ) (o : List ℕ) :
    Except StepError (AsyncModelState × List ℕ) :=
  if m.abort_flag then
    .ok (setA m i { getA m i with leader := none }, o)
  else
    match (getA m i).inbox with
    | [] => .ok (m, o)
    | p :: rest =>
      let m1 := setA m i { getA m i with inbox := rest }
      match p with
      | .collect snd ids => on_collect m1 i snd ids o
      | .setup snd ids => on_setup m1 i snd ids o
      | .commit snd v => on_commit m1 i snd v o
      | .reveal snd ids prs la => on_reveal m1 i snd ids prs la o
      | .choose _ _ _ _ => .error .chooseCaseAttributeError

/-- Run the per-agent steps for the listed ring positions in order,
propagating a raised exception. -/
def step_agents : List ℕ → AsyncModelState → List ℕ →
    Except StepError (AsyncModelState × List ℕ)
  | [], m, o => .ok (m, o)
  | i :: is, m, o =>
    match async_agent_step m i o with
    | .error e => .error e
    | .ok r => step_agents is r.1 r.2

/-- `UniAsyncModel.step`: no-op once aborted; otherwise deliver due messages,
step every agent in id order, and advance the tick counter. -/
def uni_async_model_step (o : List ℕ) (m : AsyncModelState) :
    Except StepError AsyncModelState :=
  if m.abort_flag then .ok m
  else
    let m1 := deliver_due m
    match step_agents (List.range m1.num_agents) m1 o with
    | .error e => .error e
    | .ok r => .ok { r.1 with ticks := r.1.ticks + 1 }

/-- `UniAsyncModel.all_finished`. -/
def all_finished (m : AsyncModelState) : Bool :=
  if m.abort_flag then true
  else
    match m.starter with
    | none => false
    | some _ => m.received_leader_reports.card = m.num_agents

/-- `UniAsyncAgent.start_protocol` on the chosen starter. -/
def start_protocol (m : AsyncModelState) (i : ℕ) (o : List ℕ) :
    AsyncModelState × List ℕ :=
  let a := getA m i
  if a.phase ≠ 0 then (m, o)
  else
    send_to_successor
      (setA m i { a with highest := (i : ℤ), phase := 1, id_set := {i} })
      i (.collect i {i}) o

/-- The state built by `UniAsyncModel.__init__` just before the starter's
`start_protocol` call: `N` fresh agents (those in `malicious` flagged
malicious) wired in a ring, the starter chosen, nothing sent yet. -/
def async_base_model (N starter : ℕ) (malicious : Finset ℕ)
    (max_delay : ℕ) : AsyncModelState :=
  { num_agents := N
    max_message_delay := max_delay
    ticks := 0
    abort_flag := false
    starter := some starter
    received_leader_reports := ∅
    agents := (List.range N).map (fun i =>
      { UniAsyncAgentState.mkInit with is_malicious := decide (i ∈ malicious) })
    queue := []
    seq := 0 }

/-- `UniAsyncModel.__init__`: build the base state and run the starter's
`start_protocol`, consuming the oracle for the initial COLLECT's delay. -/
def mk_uni_async_model (N starter : ℕ) (malicious : Finset ℕ)
    (max_delay : ℕ) (o : List ℕ) : AsyncModelState :=
  (start_protocol (async_base_model N starter malicious max_delay)
    starter o).1

/-- Reachable observation states of the asynchronous model: the state right
after construction, closed under successful driver `step()` calls with any
randomness. -/
inductive AsyncReachable : AsyncModelState → Prop
  | init (N starter : ℕ) (malicious : Finset ℕ) (max_delay : ℕ) (o : List ℕ)
      (hN : 1 ≤ N) (hs : starter < N) (hd : 1 ≤ max_delay) :
      AsyncReachable (mk_uni_async_model N starter malicious max_delay o)
  | step (m m' : AsyncModelState) (o : List ℕ) (h : AsyncReachable m)
      (hs : uni_async_model_step o m = .ok m') : AsyncReachable m'

/-- A message of the synchronous variant (`src/uni_sync/types.py`): the
`MessageType` enum has exactly COLLECT, SETUP and RANDOM, and the payload is
an id set for the first two and the sender's random number for the third. -/
inductive SyncMsg where
  | collect (sender_id : ℕ) (payload : Finset ℕ)
  | setup (sender_id : ℕ) (payload : Finset ℕ)
  | random (sender_id : ℕ) (payload : ℕ)
deriving DecidableEq

/-- Local state of one `UniSyncAgent` (uni_sync/agent.py `__init__`). -/
structure UniSyncAgentState where
  leader : Option ℕ
  highest : ℤ
  phase : ℕ
  count : ℤ
  id_set : Finset ℕ
  N_rand : ℤ
  all_N_rand : List (ℕ × ℕ)
  inbox : List SyncMsg
deriving DecidableEq

/-- Fresh agent state as produced by `UniSyncAgent.__init__`. -/
def UniSyncAgentState.mkInit : UniSyncAgentState :=
  { leader := none
    highest := -1
    phase := 0
    count := 0
    id_set := ∅
    N_rand := -1
    all_N_rand := []
    inbox := [] }

instance : Inhabited UniSyncAgentState := ⟨UniSyncAgentState.mkInit⟩

/-- Global state of a `UniSyncModel`: the flat agent collection and the
double buffer `current_round_messages` (one pending list per recipient). -/
structure SyncModelState where
  num_agents : ℕ
  agents : List UniSyncAgentState
  current_round_messages : List (List SyncMsg)
deriving DecidableEq

/-- Agent at ring position `i` of the synchronous model. -/
def getSA (m : SyncModelState) (i : ℕ) : UniSyncAgentState :=
  m.agents.getD i default

/-- Replace the agent at ring position `i` of the synchronous model. -/
def setSA (m : SyncModelState) (i : ℕ) (a : UniSyncAgentState) :
    SyncModelState :=
  { m with agents := m.agents.set i a }

/-- Successor id in the synchronous ring. -/
def ssucc (m : SyncModelState) (i : ℕ) : ℕ :=
  (i + 1) % m.num_agents

/-- `UniSyncModel.buffer_message` via `UniSyncAgent.send_to_successor`:
append the message to the recipient's `current_round_messages` list. -/
def sync_send (m : SyncModelState) (dst : ℕ) (msg : SyncMsg) :
    SyncModelState :=
  let q := m.current_round_messages.getD dst [] ++ [msg]
  { m with current_round_messages := m.current_round_messages.set dst q }

/-- One iteration of the message loop in `UniSyncAgent.step`.  The returned
flag is true when the loop body executed `return` (the punish paths), which
abandons the remaining messages and the trailing phase blocks. -/
def process_message (m : SyncModelState) (i : ℕ) (msg : SyncMsg) :
    SyncModelState × Bool :=
  match msg with
  | .collect s P =>
    let a := getSA m i
    -- sanity-check join: a phase-0 agent enters the protocol
    let j : SyncModelState :=
      if a.phase = 0 then
        let a' := { a with
          phase := 1
          highest := (s : ℤ)
          id_set := P ∪ {i}
          count := (m.num_agents : ℤ) }
        sync_send (setSA m i a') (ssucc m i) (.collect s a'.id_set)
      else m
    let a1 := getSA j i
    -- first message pass (note: evaluated on the state updated by the join)
    if a1.phase = 1 ∧ (s : ℤ) > a1.highest then
      let a' := { a1 with
        highest := (s : ℤ)
        id_set := P ∪ {i}
        count := (m.num_agents : ℤ) }
      (sync_send (setSA j i a') (ssucc j i) (.collect s a'.id_set), false)
    else if (s : ℤ) = a1.highest ∧ (i : ℤ) = a1.highest then
      -- originator got its message back
      if ¬(P.card = m.num_agents ∧ a1.phase = 1 ∧ a1.count = 0) then
        (setSA j i { a1 with leader := none }, true)
      else
        (sync_send
          (setSA j i { a1 with
            phase := 2
            id_set := P
            count := (m.num_agents : ℤ) })
          (ssucc j i) (.setup i P), false)
    else (j, false)
  | .setup s P =>
    let a := getSA m i
    if 1 < a.phase then (m, false)
    else if ¬((s : ℤ) = a.highest ∧ a.phase = 1 ∧ a.count = 0) then
      (setSA m i { a with leader := none }, true)
    else
      (sync_send
        (setSA m i { a with
          phase := 2
          id_set := P
          count := (m.num_agents : ℤ) })
        (ssucc m i) (.setup s P), false)
  | .random s v =>
    let a := getSA m i
    if dlookup s a.all_N_rand = none then
      (sync_send (setSA m i { a with all_N_rand := dinsert s v a.all_N_rand })
        (ssucc m i) (.random s v), false)
    else (m, false)

/-- Fold `process_message` over the drained inbox, stopping at the first
early `return`. -/
def process_inbox (m : SyncModelState) (i : ℕ) :
    List SyncMsg → SyncModelState × Bool
  | [] => (m, false)
  | msg :: rest =>
    let r := process_message m i msg
    if r.2 then (r.1, true) else process_inbox r.1 i rest

/-- `UniSyncAgent.step`: skip if a leader is already chosen, decrement the
trip count when active, drain the inbox, then run the phase-2 (pick and send
the random number) and phase-3 (elect the leader) blocks. -/
def sync_agent_step (m : SyncModelState) (i : ℕ) (o : List ℕ) :
    Except StepError (SyncModelState × List ℕ) :=
  let a0 := getSA m i
  if a0.leader.isSome then .ok (m, o)
  else
    let a := { a0 with
      count := if 0 < a0.phase then a0.count - 1 else a0.count }
    let msgs := a.inbox
    let m1 := setSA m i { a with inbox := [] }
    let r := process_inbox m1 i msgs
    if r.2 then .ok (r.1, o)
    else
      let b := getSA r.1 i
      if b.phase = 2 ∧ b.count = 0 then
        let dc := draw_commit m.num_agents o
        .ok (sync_send
          (setSA r.1 i { b with
            phase := 3
            count := (m.num_agents : ℤ)
            N_rand := (dc.1 : ℤ)
            all_N_rand := dinsert i dc.1 b.all_N_rand })
          (ssucc r.1 i) (.random i dc.1), dc.2)
      else if b.phase = 3 ∧ b.count = 0 then
        if b.all_N_rand.length ≠ m.num_agents then
          .ok (setSA r.1 i { b with leader := none }, o)
        else
          let total := (b.all_N_rand.map (fun p => p.2)).sum
          let idx := total % b.all_N_rand.length
          let lst := sort_desc b.id_set
          if h : idx < lst.length then
            .ok (setSA r.1 i { b with leader := some (lst.get ⟨idx, h⟩) }, o)
          else .error .indexError
      else .ok (r.1, o)

/-- Deliver the double buffer: every agent's inbox receives (and the buffer
loses) its `current_round_messages`, before any agent steps. -/
def deliver_round (m : SyncModelState) : SyncModelState :=
  { m with
      agents := m.agents.enum.map (fun p =>
        { p.2 with inbox := p.2.inbox ++ m.current_round_messages.getD p.1 [] })
      current_round_messages := m.current_round_messages.map (fun _ => []) }

/-- Run the per-agent synchronous steps in id order. -/
def sync_step_agents : List ℕ → SyncModelState → List ℕ →
    Except StepError (SyncModelState × List ℕ)
  | [], m, o => .ok (m, o)
  | i :: is, m, o =>
    match sync_agent_step m i o with
    | .error e => .error e
    | .ok r => sync_step_agents is r.1 r.2

/-- `UniSyncModel.step`: deliver buffered messages, then step every agent. -/
def uni_sync_model_step (o : List ℕ) (m : SyncModelState) :
    Except StepError SyncModelState :=
  let m1 := deliver_round m
  match sync_step_agents (List.range m1.num_agents) m1 o with
  | .error e => .error e
  | .ok r => .ok r.1

/-- `UniSyncModel.all_agents_finished`. -/
def all_agents_finished (m : SyncModelState) : Bool :=
  m.agents.all (fun a => a.leader.isSome)

/-- `UniSyncAgent.start_protocol` (UponWaking) on the chosen starter. -/
def sync_start_protocol (m : SyncModelState) (i : ℕ) : SyncModelState :=
  let a := getSA m i
  if a.phase ≠ 0 then m
  else
    sync_send
      (setSA m i { a with
        highest := (i : ℤ)
        count := (m.num_agents : ℤ)
        phase := 1
        id_set := {i} })
      (ssucc m i) (.collect i {i})

/-- `UniSyncModel.__init__`: `N` fresh agents wired in a ring, empty double
buffer, and the chosen starter woken. -/
def mk_uni_sync_model (N starter : ℕ) : SyncModelState :=
  sync_start_protocol
    { num_agents := N
      agents := (List.range N).map (fun _ => UniSyncAgentState.mkInit)
      current_round_messages := (List.range N).map (fun _ => []) }
    starter

/-- Reachable observation states of the synchronous model. -/
inductive SyncReachable : SyncModelState → Prop
  | init (N starter : ℕ) (hN : 1 ≤ N) (hs : starter < N) :
      SyncReachable (mk_uni_sync_model N starter)
  | step (m m' : SyncModelState) (o : List ℕ) (h : SyncReachable m)
      (hs : uni_sync_model_step o m = .ok m') : SyncReachable m'

/-- Spec-modelled variant of `process_message`, written from the spec's
error-handling table for comparison with the source translation: an
inadmissible message is silently dropped with the agent's local state
unchanged, so the two punish paths of the source (`leader = PUNISH_STATE`
followed by `return`) become plain drops that continue with the remaining
messages.  Every other branch is identical to `process_message`. -/
def process_message_dropsem (m : SyncModelState) (i : ℕ) (msg : SyncMsg) :
    SyncModelState × Bool :=
  match msg with
  | .collect s P =>
    let a := getSA m i
    let j : SyncModelState :=
      if a.phase = 0 then
        let a' := { a with
          phase := 1
          highest := (s : ℤ)
          id_set := P ∪ {i}
          count := (m.num_agents : ℤ) }
        sync_send (setSA m i a') (ssucc m i) (.collect s a'.id_set)
      else m
    let a1 := getSA j i
    if a1.phase = 1 ∧ (s : ℤ) > a1.highest then
      let a' := { a1 with
        highest := (s : ℤ)
        id_set := P ∪ {i}
        count := (m.num_agents : ℤ) }
      (sync_send (setSA j i a') (ssucc j i) (.collect s a'.id_set), false)
    else if (s : ℤ) = a1.highest ∧ (i : ℤ) = a1.highest then
      if ¬(P.card = m.num_agents ∧ a1.phase = 1 ∧ a1.count = 0) then
        (j, false)
      else
        (sync_send
          (setSA j i { a1 with
            phase := 2
            id_set := P
            count := (m.num_agents : ℤ) })
          (ssucc j i) (.setup i P), false)
    else (j, false)
  | .setup s P =>
    let a := getSA m i
    if 1 < a.phase then (m, false)
    else if ¬((s : ℤ) = a.highest ∧ a.phase = 1 ∧ a.count = 0) then
      (m, false)
    else
      (sync_send
        (setSA m i { a with
          phase := 2
          id_set := P
          count := (m.num_agents : ℤ) })
        (ssucc m i) (.setup s P), false)
  | .random s v =>
    let a := getSA m i
    if dlookup s a.all_N_rand = none then
      (sync_send (setSA m i { a with all_N_rand := dinsert s v a.all_N_rand })
        (ssucc m i) (.random s v), false)
    else (m, false)

/-- The inbox fold under the spec-modelled drop semantics. -/
def process_inbox_dropsem (m : SyncModelState) (i : ℕ) :
    List SyncMsg → SyncModelState × Bool
  | [] => (m, false)
  | msg :: rest =>
    let r := process_message_dropsem m i msg
    if r.2 then (r.1, true) else process_inbox_dropsem r.1 i rest

/-- A concrete three-agent synchronous configuration: agent 2 is fresh
(phase 0, `highest = -1`) and its drained inbox holds an inadmissible SETUP
from sender 1 followed by a COLLECT that a fresh agent would join on. -/
def c7_m : SyncModelState :=
  { num_agents := 3
    agents := [UniSyncAgentState.mkInit, UniSyncAgentState.mkInit,
      UniSyncAgentState.mkInit]
    current_round_messages := [[], [], []] }

/-- All synchronous protocol messages currently in the system: buffered in
the double buffer for the next round or waiting in some agent's inbox. -/
def SyncSystemMsgs (m : SyncModelState) : List SyncMsg :=
  m.current_round_messages.flatten ++ (m.agents.map (fun a => a.inbox)).flatten

/-- Well-formedness of one synchronous message: COLLECT payloads stay inside
the id range, SETUP payloads carry the full id range, and a RANDOM message
reports exactly the current `N_rand` of its (in-range) originator. -/
def SMsgOK (m : SyncModelState) : SyncMsg → Prop
  | .collect _ P => P ⊆ Finset.range m.num_agents
  | .setup _ P => P = Finset.range m.num_agents
  | .random s v => (getSA m s).N_rand = (v : ℤ) ∧ s < m.num_agents

/-- The election rule of `UniSyncAgent.step` phase 3, written over the
global state: the descending sort of the full id set, indexed by the sum of
all drawn contributions modulo the number of agents. -/
def leaderRule (m : SyncModelState) : ℕ :=
  (sort_desc (Finset.range m.num_agents)).getD
    (((Finset.range m.num_agents).sum
      (fun s => ((getSA m s).N_rand).toNat)) % m.num_agents) 0

/-- Inductive invariant of the synchronous model. -/
structure SyncInv (m : SyncModelState) : Prop where
  alen : m.agents.length = m.num_agents
  clen : m.current_round_messages.length = m.num_agents
  npos : 1 ≤ m.num_agents
  msgs : ∀ msg ∈ SyncSystemMsgs m, SMsgOK m msg
  entries : ∀ a ∈ m.agents, ∀ p ∈ a.all_N_rand,
    (getSA m p.1).N_rand = (p.2 : ℤ) ∧ p.1 < m.num_agents
  keys_nodup : ∀ a ∈ m.agents, (a.all_N_rand.map (fun p => p.1)).Nodup
  idset : ∀ a ∈ m.agents, 2 ≤ a.phase → a.id_set = Finset.range m.num_agents
  nrand_neg : ∀ a ∈ m.agents, a.phase ≤ 2 → a.N_rand = -1
  nrand_pos : ∀ a ∈ m.agents, a.phase = 3 → 0 ≤ a.N_rand
  phase_le : ∀ a ∈ m.agents, a.phase ≤ 3
  leader_ok : ∀ a ∈ m.agents, ∀ l, a.leader = some l →
    (∀ s < m.num_agents, 0 ≤ (getSA m s).N_rand) ∧ l = leaderRule m ∧
    a.id_set = Finset.range m.num_agents

/-- A concrete synchronous run with two honest agents started by agent 0,
all oracle draws 0: both agents elect leader 1 by the seventh step. -/
def syncRun2 : ℕ → SyncModelState
  | 0 => mk_uni_sync_model 2 0
  | k + 1 => ((uni_sync_model_step [] (syncRun2 k)).toOption).getD
      (mk_uni_sync_model 2 0)

/-- All protocol payloads currently in the system: queued in the network or
waiting in some agent's inbox. -/
def SystemMsgs (m : AsyncModelState) : List AsyncPayload :=
  m.queue.map (fun pm => pm.payload) ++ (m.agents.map (fun a => a.inbox)).flatten

/-- Per-message component of the protocol invariant: COLLECT, SETUP and
REVEAL traversals are always originated by the starter, and REVEAL pair
lists never repeat an agent id. -/
def MsgOK (st : Option ℕ) : AsyncPayload → Prop
  | .collect s _ => st = some s
  | .setup s _ => st = some s
  | .reveal s _ prs _ => st = some s ∧ (prs.map (fun pr => pr.1)).Nodup
  | _ => True

/-- Inductive invariant of the asynchronous model, holding at every
reachable observation state. -/
structure AsyncInv (m : AsyncModelState) : Prop where
  agents_len : m.agents.length = m.num_agents
  num_pos : 1 ≤ m.num_agents
  starter_lt : ∀ s, m.starter = some s → s < m.num_agents
  leaders : ∀ a ∈ m.agents, a.leader = none
  reports : m.received_leader_reports = ∅
  msgs : ∀ p ∈ SystemMsgs m, MsgOK m.starter p
  sphase : ∀ s ids, AsyncPayload.setup s ids ∈ SystemMsgs m → 2 ≤ (getA m s).phase
  hcommit : ∀ s, m.starter = some s → (getA m s).is_malicious = false →
    ∀ v, AsyncPayload.commit s v ∉ SystemMsgs m
  hcfp : ∀ s, m.starter = some s → (getA m s).is_malicious = false →
    (getA m (succ_of m s)).commit_from_predecessor = none

lemma getA_setA_ne (m : AsyncModelState) (i j : ℕ) (a : UniAsyncAgentState)
    (h : j ≠ i) : getA (setA m i a) j = getA m j := by
  simp [getA, setA, List.getD_eq_getElem?_getD,
    List.getElem?_set_ne (fun hh => h hh.symm)]

lemma getA_setA_self (m : AsyncModelState) (i : ℕ) (a : UniAsyncAgentState)
    (h : i < m.agents.length) : getA (setA m i a) i = a := by
  simp [getA, setA, List.getD_eq_getElem?_getD, List.getElem?_set_self, h]

lemma getA_eq_getElem (m : AsyncModelState) (i : ℕ) (h : i < m.agents.length) :
    getA m i = m.agents[i] := by
  simp [getA, List.getD_eq_getElem?_getD, List.getElem?_eq_getElem h]

lemma getA_mem (m : AsyncModelState) (i : ℕ) (h : i < m.agents.length) :
    getA m i ∈ m.agents := by
  rw [getA_eq_getElem m i h]; exact List.getElem_mem h

lemma mem_insertPM (x pm : PendingMessage) (l : List PendingMessage) :
    x ∈ insertPM pm l ↔ x = pm ∨ x ∈ l := by
  induction l with
  | nil => simp [insertPM]
  | cons q rest ih =>
    simp only [insertPM]
    split
    · simp [List.mem_cons]
    · simp only [List.mem_cons, ih]
      tauto

lemma mem_SystemMsgs_of_inbox (m : AsyncModelState) (i : ℕ)
    (h : i < m.agents.length) {q : AsyncPayload}
    (hq : q ∈ (getA m i).inbox) : q ∈ SystemMsgs m := by
  rw [SystemMsgs]
  refine List.mem_append.2 (Or.inr ?_)
  rw [List.mem_flatten]
  exact ⟨(getA m i).inbox, List.mem_map.2 ⟨getA m i, getA_mem m i h, rfl⟩, hq⟩

lemma mem_SystemMsgs_of_mem_agents {m : AsyncModelState}
    {b : UniAsyncAgentState} (hb : b ∈ m.agents) {q : AsyncPayload}
    (hq : q ∈ b.inbox) : q ∈ SystemMsgs m := by
  rw [SystemMsgs]
  refine List.mem_append.2 (Or.inr ?_)
  rw [List.mem_flatten]
  exact ⟨b.inbox, List.mem_map.2 ⟨b, hb, rfl⟩, hq⟩

lemma mem_SystemMsgs_setA {m : AsyncModelState} {i : ℕ}
    {a : UniAsyncAgentState} {q : AsyncPayload}
    (h : q ∈ SystemMsgs (setA m i a)) : q ∈ a.inbox ∨ q ∈ SystemMsgs m := by
  rw [SystemMsgs] at h
  rcases List.mem_append.1 h with h | h
  · exact Or.inr (List.mem_append.2 (Or.inl h))
  · rw [List.mem_flatten] at h
    obtain ⟨L, hL, hqL⟩ := h
    rw [List.mem_map] at hL
    obtain ⟨b, hb, rfl⟩ := hL
    rcases List.mem_or_eq_of_mem_set hb with hb | rfl
    · exact Or.inr (mem_SystemMsgs_of_mem_agents hb hqL)
    · exact Or.inl hqL

lemma mem_SystemMsgs_net_send {m : AsyncModelState} {src dst : ℕ}
    {p : AsyncPayload} {o : List ℕ} {q : AsyncPayload}
    (h : q ∈ SystemMsgs (net_send m src dst p o).1) :
    q = p ∨ q ∈ SystemMsgs m := by
  rw [SystemMsgs] at h
  rcases List.mem_append.1 h with h | h
  · rw [List.mem_map] at h
    obtain ⟨pm, hpm, rfl⟩ := h
    rw [show (net_send m src dst p o).1.queue = insertPM
      { deliver_at := m.ticks + max 1 (1 + o.headD 0 % m.max_message_delay),
        seq := m.seq, source := src, dest := dst, payload := p } m.queue from rfl,
      mem_insertPM] at hpm
    rcases hpm with rfl | hpm
    · exact Or.inl rfl
    · exact Or.inr (List.mem_append.2 (Or.inl (List.mem_map.2 ⟨pm, hpm, rfl⟩)))
  · exact Or.inr (List.mem_append.2 (Or.inr h))

lemma asyncInv_setA {m : AsyncModelState} (h : AsyncInv m) (i : ℕ)
    (a' : UniAsyncAgentState) (hi : i < m.agents.length)
    (hleader : a'.leader = none)
    (hinbox : ∀ q ∈ a'.inbox, q ∈ SystemMsgs m)
    (hphase : 2 ≤ (getA m i).phase → 2 ≤ a'.phase)
    (hmal : a'.is_malicious = (getA m i).is_malicious)
    (hcfp' : ∀ s, m.starter = some s → (getA m s).is_malicious = false →
      i = succ_of m s → a'.commit_from_predecessor = none) :
    AsyncInv (setA m i a') := by
  have hget : ∀ j, getA (setA m i a') j = if j = i then a' else getA m j := by
    intro j
    by_cases hj : j = i
    · subst hj; simp [getA_setA_self m j a' hi]
    · simp [hj, getA_setA_ne m i j a' hj]
  have hmal' : ∀ s, (getA (setA m i a') s).is_malicious =
      (getA m s).is_malicious := by
    intro s
    rw [hget s]
    by_cases hs : s = i
    · simp [hs, hmal]
    · simp [hs]
  have hmsg : ∀ q ∈ SystemMsgs (setA m i a'), q ∈ SystemMsgs m := by
    intro q hq
    rcases mem_SystemMsgs_setA hq with hq | hq
    · exact hinbox q hq
    · exact hq
  refine ⟨?_, ?_, ?_, ?_, ?_, ?_, ?_, ?_, ?_⟩
  · simpa [setA] using h.agents_len
  · exact h.num_pos
  · exact h.starter_lt
  · intro b hb
    rcases List.mem_or_eq_of_mem_set hb with hb | rfl
    · exact h.leaders b hb
    · exact hleader
  · exact h.reports
  · intro p hp
    exact h.msgs p (hmsg p hp)
  · intro s ids hp
    have hpre := h.sphase s ids (hmsg _ hp)
    rw [hget s]
    by_cases hs : s = i
    · subst hs; simp [hphase hpre]
    · simp [hs, hpre]
  · intro s hs hm v hmem
    exact h.hcommit s hs (by rw [← hmal' s]; exact hm) v (hmsg _ hmem)
  · intro s hs hm
    have hm0 : (getA m s).is_malicious = false := by rw [← hmal' s]; exact hm
    have hsucc : succ_of (setA m i a') s = succ_of m s := rfl
    rw [hsucc, hget (succ_of m s)]
    by_cases hc : succ_of m s = i
    · simp only [hc, if_pos rfl]
      exact hcfp' s hs hm0 hc.symm
    · simp only [if_neg hc]
      exact h.hcfp s hs hm0

lemma asyncInv_net_send {m : AsyncModelState} (h : AsyncInv m)
    {p : AsyncPayload} (hp : MsgOK m.starter p)
    (hsp : ∀ s ids, p = .setup s ids → 2 ≤ (getA m s).phase)
    (hcm : ∀ s, m.starter = some s → (getA m s).is_malicious = false →
      ∀ v, p ≠ .commit s v)
    (src dst : ℕ) (o : List ℕ) : AsyncInv (net_send m src dst p o).1 := by
  have hagents : (net_send m src dst p o).1.agents = m.agents := rfl
  have hgets : ∀ j, getA (net_send m src dst p o).1 j = getA m j := fun _ => rfl
  have hmem : ∀ q ∈ SystemMsgs (net_send m src dst p o).1,
      q = p ∨ q ∈ SystemMsgs m := fun _ => mem_SystemMsgs_net_send
  refine ⟨?_, h.num_pos, h.starter_lt, ?_, h.reports, ?_, ?_, ?_, ?_⟩
  · rw [hagents]; exact h.agents_len
  · rw [hagents]; exact h.leaders
  · intro q hq
    rcases hmem q hq with rfl | hq
    · exact hp
    · exact h.msgs q hq
  · intro s ids hq
    rw [hgets s]
    rcases hmem _ hq with hq | hq
    · exact hsp s ids hq.symm
    · exact h.sphase s ids hq
  · intro s hs hm v hmem'
    rcases hmem _ hmem' with hq | hq
    · exact hcm s hs hm v hq.symm
    · exact h.hcommit s hs hm v hq
  · intro s hs hm
    exact h.hcfp s hs hm

lemma asyncInv_abort_toggle {m : AsyncModelState} (h : AsyncInv m)
    (b : Bool) : AsyncInv { m with abort_flag := b } := by
  refine ⟨h.agents_len, h.num_pos, h.starter_lt, h.leaders, h.reports,
    h.msgs, h.sphase, h.hcommit, h.hcfp⟩

lemma asyncInv_ticks {m : AsyncModelState} (h : AsyncInv m)
    (t : ℕ) : AsyncInv { m with ticks := t } := by
  refine ⟨h.agents_len, h.num_pos, h.starter_lt, h.leaders, h.reports,
    h.msgs, h.sphase, h.hcommit, h.hcfp⟩

lemma asyncInv_abort_state {m : AsyncModelState} (h : AsyncInv m) (i : ℕ)
    (hi : i < m.agents.length) : AsyncInv (abort_state m i) := by
  rw [abort_state]
  have h1 : AsyncInv { m with abort_flag := true } := asyncInv_abort_toggle h true
  exact asyncInv_setA h1 i _ hi rfl
    (fun q hq => mem_SystemMsgs_of_inbox m i hi hq)
    (fun hp => hp) rfl
    (fun s hs hm hsc => by
      have := h1.hcfp s hs hm
      rw [← hsc] at this
      exact this)

lemma pred_of_succ (m : AsyncModelState) (s : ℕ) (hs : s < m.num_agents) :
    pred_of m (succ_of m s) = s := by
  rw [pred_of, succ_of]
  rcases Nat.lt_or_ge (s + 1) m.num_agents with h | h
  · rw [Nat.mod_eq_of_lt h]
    have h2 : s + 1 + m.num_agents - 1 = s + m.num_agents := by omega
    rw [h2, Nat.add_mod_right, Nat.mod_eq_of_lt hs]
  · have hN : m.num_agents = s + 1 := by omega
    rw [hN, Nat.mod_self]
    have h2 : 0 + (s + 1) - 1 = s := by omega
    rw [h2, Nat.mod_eq_of_lt (by omega)]

lemma is_malicious_setA {m : AsyncModelState} {i : ℕ}
    {a' : UniAsyncAgentState}
    (hmal : a'.is_malicious = (getA m i).is_malicious) (s : ℕ) :
    (getA (setA m i a') s).is_malicious = (getA m s).is_malicious := by
  by_cases hlen : i < m.agents.length
  · by_cases hsi : s = i
    · subst hsi; rw [getA_setA_self m s a' hlen, hmal]
    · rw [getA_setA_ne m i s a' hsi]
  · have hset : m.agents.set i a' = m.agents :=
      List.set_eq_of_length_le (by omega)
    simp [getA, setA, hset]

lemma ok_pair_fst {α β : Type} {P : α × β} {x : α} {y : β}
    (h : Except.ok (ε := StepError) P = .ok (x, y)) : x = P.1 := by
  have h2 := Except.ok.inj h
  rw [h2]

/-- Combined preservation helper: update agent `i` and send one message to
its successor, with all hypotheses phrased over the original state. -/
lemma asyncInv_setA_send {m : AsyncModelState} (h : AsyncInv m) (i : ℕ)
    (a' : UniAsyncAgentState) (hi : i < m.agents.length)
    (hleader : a'.leader = none)
    (hinbox : ∀ q ∈ a'.inbox, q ∈ SystemMsgs m)
    (hphase : 2 ≤ (getA m i).phase → 2 ≤ a'.phase)
    (hmal : a'.is_malicious = (getA m i).is_malicious)
    (hcfp' : ∀ s, m.starter = some s → (getA m s).is_malicious = false →
      i = succ_of m s → a'.commit_from_predecessor = none)
    (p : AsyncPayload) (hp : MsgOK m.starter p)
    (hsp : ∀ s ids, p = .setup s ids → 2 ≤ (getA (setA m i a') s).phase)
    (hcm : ∀ s, m.starter = some s → (getA m s).is_malicious = false →
      ∀ v, p ≠ .commit s v)
    (o : List ℕ) :
    AsyncInv (send_to_successor (setA m i a') i p o).1 := by
  have h2 : AsyncInv (setA m i a') :=
    asyncInv_setA h i a' hi hleader hinbox hphase hmal hcfp'
  rw [send_to_successor]
  refine asyncInv_net_send h2 hp ?_ ?_ i (succ_of (setA m i a') i) o
  · intro s ids heq
    exact hsp s ids heq
  · intro s hs hm v heq
    have hm0 : (getA m s).is_malicious = false := by
      rw [← is_malicious_setA hmal s]
      exact hm
    exact hcm s hs hm0 v heq

lemma on_commit_inv {m : AsyncModelState} (h : AsyncInv m) (i snd v : ℕ)
    (o : List ℕ) (hi : i < m.agents.length)
    (hsnd : ∀ s, m.starter = some s → (getA m s).is_malicious = false →
      snd ≠ s)
    {m' : AsyncModelState} {o' : List ℕ}
    (hok : on_commit m i snd v o = .ok (m', o')) :
    AsyncInv m' ∧ m'.num_agents = m.num_agents := by
  rw [on_commit] at hok
  split at hok
  · have hm' := ok_pair_fst hok
    simp only at hm'
    subst hm'
    exact ⟨h, rfl⟩
  · rename_i hpred
    have hsndpred : snd = pred_of m i := by
      by_contra hc
      exact hpred hc
    have hm' := ok_pair_fst hok
    subst hm'
    refine ⟨asyncInv_setA_send h i _ hi ?_ ?_ ?_ ?_ ?_
      (.commit snd v) trivial ?_ ?_ o, rfl⟩
    · show (getA m i).leader = none
      exact h.leaders (getA m i) (getA_mem m i hi)
    · exact fun q hq => mem_SystemMsgs_of_inbox m i hi hq
    · exact fun hp => hp
    · exact rfl
    · intro s hs hm hsc
      exfalso
      have hslt := h.starter_lt s hs
      have hss : snd = s := by
        rw [hsndpred, hsc, pred_of_succ m s hslt]
      exact hsnd s hs hm hss
    · intro s ids heq
      cases heq
    · intro s hs hm v' heq
      have hsnd' := hsnd s hs hm
      rw [AsyncPayload.commit.injEq] at heq
      exact hsnd' heq.1

lemma on_collect_inv {m : AsyncModelState} (h : AsyncInv m) (i snd : ℕ)
    (ids : Finset ℕ) (o : List ℕ) (hi : i < m.agents.length)
    (hcol : m.starter = some snd)
    {m' : AsyncModelState} {o' : List ℕ}
    (hok : on_collect m i snd ids o = .ok (m', o')) :
    AsyncInv m' ∧ m'.num_agents = m.num_agents := by
  rw [on_collect] at hok
  split at hok
  · -- adopt the larger originator and forward the COLLECT
    have hm' := ok_pair_fst hok
    subst hm'
    refine ⟨asyncInv_setA_send h i _ hi ?_ ?_ ?_ ?_ ?_
      (.collect snd (insert i ids)) hcol ?_ ?_ o, rfl⟩
    · show (getA m i).leader = none
      exact h.leaders (getA m i) (getA_mem m i hi)
    · exact fun q hq => mem_SystemMsgs_of_inbox m i hi hq
    · exact fun hp => hp
    · exact rfl
    · intro s hs hm hsc
      show (getA m i).commit_from_predecessor = none
      have hthis := h.hcfp s hs hm
      rw [← hsc] at hthis
      exact hthis
    · intro s ids' heq
      cases heq
    · intro s hs hm v' heq
      cases heq
  · split at hok
    · -- originator return: enter SETUP phase
      rename_i hb2
      have hm' := ok_pair_fst hok
      subst hm'
      obtain ⟨hsi, hcard⟩ := hb2
      subst hsi
      refine ⟨asyncInv_setA_send h snd _ hi ?_ ?_ ?_ ?_ ?_
        (.setup snd ids) hcol ?_ ?_ o, rfl⟩
      · show (getA m snd).leader = none
        exact h.leaders (getA m snd) (getA_mem m snd hi)
      · exact fun q hq => mem_SystemMsgs_of_inbox m snd hi hq
      · exact fun _ => by norm_num
      · exact rfl
      · intro s hs hm hsc
        show (getA m snd).commit_from_predecessor = none
        have hthis := h.hcfp s hs hm
        rw [← hsc] at hthis
        exact hthis
      · intro s ids' heq
        rw [AsyncPayload.setup.injEq] at heq
        rw [← heq.1, getA_setA_self m snd _ hi]
      · intro s hs hm v' heq
        cases heq
    · have hm' := ok_pair_fst hok
      simp only at hm'
      subst hm'
      exact ⟨h, rfl⟩

lemma nodup_fst_append {pairs : List (ℕ × ℕ)} {i r : ℕ}
    (hnd : (pairs.map (fun pr => pr.1)).Nodup)
    (hne : ∀ pr ∈ pairs, pr.1 ≠ i) :
    ((pairs ++ [(i, r)]).map (fun pr => pr.1)).Nodup := by
  rw [List.map_append]
  refine List.Nodup.append hnd (List.nodup_singleton i) ?_
  intro a ha hb
  rw [List.mem_map] at ha
  obtain ⟨pr, hpr, rfl⟩ := ha
  simp only [List.map_cons, List.map_nil, List.mem_singleton] at hb
  exact hne pr hpr hb

lemma reveal_append_inv {m : AsyncModelState} (h : AsyncInv m) (i : ℕ)
    (pairs : List (ℕ × ℕ)) (o : List ℕ) (hi : i < m.agents.length) :
    AsyncInv (reveal_append m i pairs o).1 ∧
    (reveal_append m i pairs o).1.starter = m.starter ∧
    (reveal_append m i pairs o).1.num_agents = m.num_agents := by
  have hgen : ∀ a' : UniAsyncAgentState,
      a'.leader = (getA m i).leader →
      a'.inbox = (getA m i).inbox →
      a'.phase = (getA m i).phase →
      a'.is_malicious = (getA m i).is_malicious →
      a'.commit_from_predecessor = (getA m i).commit_from_predecessor →
      AsyncInv (setA m i a') ∧ (setA m i a').starter = m.starter ∧
        (setA m i a').num_agents = m.num_agents := by
    intro a' hl hib hph hml hcf
    refine ⟨?_, rfl, rfl⟩
    refine asyncInv_setA h i a' hi ?_ ?_ ?_ hml ?_
    · rw [hl]; exact h.leaders (getA m i) (getA_mem m i hi)
    · rw [hib]; exact fun q hq => mem_SystemMsgs_of_inbox m i hi hq
    · rw [hph]; exact fun hp => hp
    · intro s hs hm hsc
      rw [hcf, hsc]
      exact h.hcfp s hs hm
  suffices hS : ∀ r, reveal_append m i pairs o = r →
      AsyncInv r.1 ∧ r.1.starter = m.starter ∧ r.1.num_agents = m.num_agents by
    exact hS _ rfl
  intro r hr
  rw [reveal_append] at hr
  simp only [] at hr
  split at hr
  · split at hr
    · subst hr
      exact ⟨h, rfl, rfl⟩
    · split at hr
      · subst hr
        exact hgen _ rfl rfl rfl rfl rfl
      · subst hr
        exact hgen _ rfl rfl rfl rfl rfl
  · subst hr
    exact ⟨h, rfl, rfl⟩

lemma reveal_append_pairs (m : AsyncModelState) (i : ℕ)
    (pairs : List (ℕ × ℕ)) (o : List ℕ) :
    (reveal_append m i pairs o).2.1 = pairs ∨
    ∃ r, (∀ pr ∈ pairs, pr.1 ≠ i) ∧
      (reveal_append m i pairs o).2.1 = pairs ++ [(i, r)] := by
  suffices hS : ∀ r, reveal_append m i pairs o = r →
      r.2.1 = pairs ∨ ∃ v, (∀ pr ∈ pairs, pr.1 ≠ i) ∧
        r.2.1 = pairs ++ [(i, v)] by
    exact hS _ rfl
  intro r hr
  rw [reveal_append] at hr
  simp only [] at hr
  split at hr
  · rename_i hall
    have hne : ∀ pr ∈ pairs, pr.1 ≠ i := by
      intro pr hpr
      have h2 := List.all_eq_true.1 hall pr hpr
      simpa using h2
    split at hr
    · subst hr
      exact Or.inr ⟨_, hne, rfl⟩
    · split at hr
      · subst hr
        exact Or.inr ⟨_, hne, rfl⟩
      · subst hr
        exact Or.inr ⟨_, hne, rfl⟩
  · subst hr
    exact Or.inl rfl

lemma reveal_rest_inv {m : AsyncModelState} (h : AsyncInv m) (i snd : ℕ)
    (ids : Finset ℕ) (pairs : List (ℕ × ℕ)) (o : List ℕ)
    (hi : i < m.agents.length) (hsnd : m.starter = some snd)
    (hnodup : (pairs.map (fun pr => pr.1)).Nodup)
    {m' : AsyncModelState} {o' : List ℕ}
    (hok : reveal_rest m i snd ids pairs o = .ok (m', o')) :
    AsyncInv m' ∧ m'.num_agents = m.num_agents := by
  obtain ⟨hInv, hst, hnum⟩ := reveal_append_inv h i pairs o hi
  rw [reveal_rest] at hok
  split at hok
  · simp only [] at hok
    split at hok <;> simp at hok
  · have hm' := ok_pair_fst hok
    subst hm'
    constructor
    · rw [send_to_successor]
      refine asyncInv_net_send hInv ?_ ?_ ?_ i _ _
      · show (reveal_append m i pairs o).1.starter = some snd ∧ _
        refine ⟨by rw [hst]; exact hsnd, ?_⟩
        rcases reveal_append_pairs m i pairs o with hp | ⟨r, hne, hp⟩
        · rw [hp]; exact hnodup
        · rw [hp]; exact nodup_fst_append hnodup hne
      · intro s ids' heq
        cases heq
      · intro s hs hm v heq
        cases heq
    · exact hnum

lemma on_reveal_inv {m : AsyncModelState} (h : AsyncInv m) (i snd : ℕ)
    (ids : Finset ℕ) (pairs : List (ℕ × ℕ)) (la : Option ℕ) (o : List ℕ)
    (hi : i < m.agents.length) (hsnd : m.starter = some snd)
    (hnodup : (pairs.map (fun pr => pr.1)).Nodup)
    {m' : AsyncModelState} {o' : List ℕ}
    (hok : on_reveal m i snd ids pairs la o = .ok (m', o')) :
    AsyncInv m' ∧ m'.num_agents = m.num_agents := by
  rw [on_reveal] at hok
  split at hok
  · have hm' := ok_pair_fst hok
    simp only at hm'
    subst hm'
    exact ⟨h, rfl⟩
  · split at hok
    · have hm' := ok_pair_fst hok
      subst hm'
      exact ⟨asyncInv_abort_state h i hi, rfl⟩
    · split at hok
      · split at hok
        · have hm' := ok_pair_fst hok
          simp only at hm'
          subst hm'
          exact ⟨h, rfl⟩
        · split at hok
          · have hm' := ok_pair_fst hok
            subst hm'
            exact ⟨asyncInv_abort_state h i hi, rfl⟩
          · exact reveal_rest_inv h i snd ids pairs o hi hsnd hnodup hok
      · exact reveal_rest_inv h i snd ids pairs o hi hsnd hnodup hok

lemma except_map_ok {α β : Type} (f : α → β) (x : α) :
    (Except.ok (ε := StepError) x).map f = .ok (f x) := rfl

lemma setup_fill_leader (a : UniAsyncAgentState) (ids : Finset ℕ) :
    (setup_fill_id_set a ids).leader = a.leader := by
  rw [setup_fill_id_set]; split <;> rfl

lemma setup_fill_inbox (a : UniAsyncAgentState) (ids : Finset ℕ) :
    (setup_fill_id_set a ids).inbox = a.inbox := by
  rw [setup_fill_id_set]; split <;> rfl

lemma setup_fill_phase (a : UniAsyncAgentState) (ids : Finset ℕ) :
    (setup_fill_id_set a ids).phase = a.phase := by
  rw [setup_fill_id_set]; split <;> rfl

lemma setup_fill_malicious (a : UniAsyncAgentState) (ids : Finset ℕ) :
    (setup_fill_id_set a ids).is_malicious = a.is_malicious := by
  rw [setup_fill_id_set]; split <;> rfl

lemma setup_fill_cfp (a : UniAsyncAgentState) (ids : Finset ℕ) :
    (setup_fill_id_set a ids).commit_from_predecessor =
      a.commit_from_predecessor := by
  rw [setup_fill_id_set]; split <;> rfl

lemma setup_commit_update_spec {N : ℕ} {a1 : UniAsyncAgentState} {o : List ℕ}
    {r : UniAsyncAgentState × ℕ × List ℕ}
    (hok : setup_commit_update N a1 o = .ok r) :
    r.1.leader = a1.leader ∧ r.1.inbox = a1.inbox ∧ r.1.phase = 2 ∧
    r.1.is_malicious = a1.is_malicious ∧
    r.1.commit_from_predecessor = a1.commit_from_predecessor := by
  rw [setup_commit_update] at hok
  split at hok
  · rw [draw_diff] at hok
    split at hok
    · simp [Except.map] at hok
    · have hr := Except.ok.inj hok
      rw [← hr]
      exact ⟨rfl, rfl, rfl, rfl, rfl⟩
  · have hr := Except.ok.inj hok
    rw [← hr]
    exact ⟨rfl, rfl, rfl, rfl, rfl⟩

lemma setup_tail_inv {m : AsyncModelState} (h : AsyncInv m) (i snd : ℕ)
    (ids : Finset ℕ) (o : List ℕ) (hi : i < m.agents.length)
    (hsnd : m.starter = some snd) (hph : 2 ≤ (getA m snd).phase) :
    AsyncInv (setup_tail m i snd ids o).1 ∧
    (setup_tail m i snd ids o).1.num_agents = m.num_agents := by
  rw [setup_tail]
  split
  · constructor
    · rw [send_to_successor]
      refine asyncInv_net_send h
        (show MsgOK m.starter (.setup snd ids) from hsnd) ?_ ?_ i _ o
      · intro s ids' heq
        rw [AsyncPayload.setup.injEq] at heq
        rw [← heq.1]
        exact hph
      · intro s hs hm v heq
        cases heq
    · rfl
  · constructor
    · refine asyncInv_setA_send h i _ hi ?_ ?_ ?_ ?_ ?_
        (.reveal snd (getA m i).id_set [] none) ?_ ?_ ?_ o
      · show (getA m i).leader = none
        exact h.leaders (getA m i) (getA_mem m i hi)
      · exact fun q hq => mem_SystemMsgs_of_inbox m i hi hq
      · exact fun _ => by norm_num
      · exact rfl
      · intro s hs hm hsc
        show (getA m i).commit_from_predecessor = none
        rw [hsc]
        exact h.hcfp s hs hm
      · exact ⟨hsnd, by simp⟩
      · intro s ids' heq
        cases heq
      · intro s hs hm v heq
        cases heq
    · rfl

lemma on_setup_inv {m : AsyncModelState} (h : AsyncInv m) (i snd : ℕ)
    (ids : Finset ℕ) (o : List ℕ) (hi : i < m.agents.length)
    (hsnd : m.starter = some snd) (hph : 2 ≤ (getA m snd).phase)
    {m' : AsyncModelState} {o' : List ℕ}
    (hok : on_setup m i snd ids o = .ok (m', o')) :
    AsyncInv m' ∧ m'.num_agents = m.num_agents := by
  rw [on_setup] at hok
  split at hok
  · have hm' := ok_pair_fst hok
    simp only at hm'
    subst hm'
    exact ⟨h, rfl⟩
  · simp only [] at hok
    split at hok
    · -- the commit branch was taken
      rename_i hcond
      rcases hX : setup_commit_update m.num_agents
          (setup_fill_id_set (getA m i) ids) o with e | r
      · rw [hX] at hok
        simp [Except.map] at hok
      · rw [hX, except_map_ok] at hok
        have hm' := ok_pair_fst hok
        subst hm'
        obtain ⟨hrl, hrib, hrph, hrml, hrcf⟩ := setup_commit_update_spec hX
        -- the processing agent is not an honest starter
        have hnotstarter : ∀ s, m.starter = some s →
            (getA m s).is_malicious = false → i ≠ s := by
          intro s hs hm0 his
          subst his
          have hssnd : i = snd := by
            rw [hsnd] at hs
            exact (Option.some.inj hs).symm
          rcases hcond with hlt | ⟨hmal, _⟩
          · rw [setup_fill_phase] at hlt
            rw [← hssnd] at hph
            omega
          · rw [setup_fill_malicious, hm0] at hmal
            exact Bool.false_ne_true hmal
        have hInv1 : AsyncInv (setA m i r.1) := by
          refine asyncInv_setA h i r.1 hi ?_ ?_ ?_ ?_ ?_
          · rw [hrl, setup_fill_leader]
            exact h.leaders (getA m i) (getA_mem m i hi)
          · rw [hrib, setup_fill_inbox]
            exact fun q hq => mem_SystemMsgs_of_inbox m i hi hq
          · intro _
            rw [hrph]
          · rw [hrml, setup_fill_malicious]
          · intro s hs hm0 hsc
            rw [hrcf, setup_fill_cfp, hsc]
            exact h.hcfp s hs hm0
        have hml1 : r.1.is_malicious = (getA m i).is_malicious := by
          rw [hrml, setup_fill_malicious]
        have hInv2 : AsyncInv (send_to_successor (setA m i r.1) i
            (.commit i r.2.1) r.2.2).1 := by
          rw [send_to_successor]
          refine asyncInv_net_send hInv1
            (show MsgOK (setA m i r.1).starter (.commit i r.2.1) from trivial)
            ?_ ?_ i _ _
          · intro s ids' heq
            cases heq
          · intro s hs hm0 v heq
            rw [AsyncPayload.commit.injEq] at heq
            refine hnotstarter s hs ?_ heq.1
            rw [← is_malicious_setA hml1 s]
            exact hm0
        have hlen2 : (send_to_successor (setA m i r.1) i
            (.commit i r.2.1) r.2.2).1.agents.length = m.agents.length := by
          simp [send_to_successor, net_send, setA]
        have hst2 : (send_to_successor (setA m i r.1) i
            (.commit i r.2.1) r.2.2).1.starter = m.starter := rfl
        have hph2 : 2 ≤ (getA (send_to_successor (setA m i r.1) i
            (.commit i r.2.1) r.2.2).1 snd).phase := by
          show 2 ≤ (getA (setA m i r.1) snd).phase
          by_cases hsi : snd = i
          · subst hsi
            rw [getA_setA_self m snd r.1 hi, hrph]
          · rw [getA_setA_ne m i snd r.1 hsi]
            exact hph
        have htail := setup_tail_inv hInv2 i snd ids
          (send_to_successor (setA m i r.1) i (.commit i r.2.1) r.2.2).2
          (by rw [hlen2]; exact hi) (by rw [hst2]; exact hsnd) hph2
        exact ⟨htail.1, htail.2⟩
    · -- no commitment drawn: just forward or start REVEAL
      have hm' := ok_pair_fst hok
      subst hm'
      have hInv1 : AsyncInv (setA m i (setup_fill_id_set (getA m i) ids)) := by
        refine asyncInv_setA h i _ hi ?_ ?_ ?_ ?_ ?_
        · rw [setup_fill_leader]
          exact h.leaders (getA m i) (getA_mem m i hi)
        · rw [setup_fill_inbox]
          exact fun q hq => mem_SystemMsgs_of_inbox m i hi hq
        · intro hp
          rw [setup_fill_phase]
          exact hp
        · rw [setup_fill_malicious]
        · intro s hs hm0 hsc
          rw [setup_fill_cfp, hsc]
          exact h.hcfp s hs hm0
      have hlen1 : (setA m i (setup_fill_id_set (getA m i) ids)).agents.length =
          m.agents.length := by simp [setA]
      have hph1 : 2 ≤ (getA (setA m i (setup_fill_id_set (getA m i) ids))
          snd).phase := by
        by_cases hsi : snd = i
        · subst hsi
          rw [getA_setA_self m snd _ hi, setup_fill_phase]
          exact hph
        · rw [getA_setA_ne m i snd _ hsi]
          exact hph
      have htail := setup_tail_inv hInv1 i snd ids o
        (by rw [hlen1]; exact hi) hsnd hph1
      exact ⟨htail.1, htail.2⟩

lemma phase_setA {m : AsyncModelState} {i : ℕ} {a' : UniAsyncAgentState}
    (hph : a'.phase = (getA m i).phase) (s : ℕ) :
    (getA (setA m i a') s).phase = (getA m s).phase := by
  by_cases hlen : i < m.agents.length
  · by_cases hsi : s = i
    · subst hsi; rw [getA_setA_self m s a' hlen, hph]
    · rw [getA_setA_ne m i s a' hsi]
  · have hset : m.agents.set i a' = m.agents :=
      List.set_eq_of_length_le (by omega)
    simp [getA, setA, hset]

lemma async_agent_step_inv {m : AsyncModelState} (h : AsyncInv m) (i : ℕ)
    (o : List ℕ) (hi : i < m.num_agents)
    {m' : AsyncModelState} {o' : List ℕ}
    (hok : async_agent_step m i o = .ok (m', o')) :
    AsyncInv m' ∧ m'.num_agents = m.num_agents := by
  have hilen : i < m.agents.length := by rw [h.agents_len]; exact hi
  rw [async_agent_step] at hok
  split at hok
  · -- global abort: record the punish state
    have hm' := ok_pair_fst hok
    subst hm'
    refine ⟨asyncInv_setA h i _ hilen rfl ?_ (fun hp => hp) rfl ?_, rfl⟩
    · exact fun q hq => mem_SystemMsgs_of_inbox m i hilen hq
    · intro s hs hm0 hsc
      show (getA m i).commit_from_predecessor = none
      rw [hsc]
      exact h.hcfp s hs hm0
  · split at hok
    · -- empty inbox
      have hm' := ok_pair_fst hok
      simp only at hm'
      subst hm'
      exact ⟨h, rfl⟩
    · -- pop one message and dispatch
      rename_i p rest hinbox
      have hpmem : p ∈ SystemMsgs m := by
        refine mem_SystemMsgs_of_inbox m i hilen ?_
        rw [hinbox]
        exact List.mem_cons_self p rest
      have hInv1 : AsyncInv (setA m i { getA m i with inbox := rest }) := by
        refine asyncInv_setA h i _ hilen ?_ ?_ (fun hp => hp) rfl ?_
        · show (getA m i).leader = none
          exact h.leaders (getA m i) (getA_mem m i hilen)
        · intro q hq
          refine mem_SystemMsgs_of_inbox m i hilen ?_
          rw [hinbox]
          exact List.mem_cons_of_mem p hq
        · intro s hs hm0 hsc
          show (getA m i).commit_from_predecessor = none
          rw [hsc]
          exact h.hcfp s hs hm0
      have hlen1 : i < (setA m i { getA m i with inbox := rest }).agents.length := by
        simpa [setA] using hilen
      have hnum1 : (setA m i { getA m i with inbox := rest }).num_agents =
          m.num_agents := rfl
      have hst1 : (setA m i { getA m i with inbox := rest }).starter =
          m.starter := rfl
      split at hok
      · -- COLLECT
        rename_i snd ids
        have hcol : m.starter = some snd := h.msgs _ hpmem
        obtain ⟨hI, hn⟩ := on_collect_inv hInv1 i snd ids o hlen1
          (by rw [hst1]; exact hcol) hok
        exact ⟨hI, hn⟩
      · -- SETUP
        rename_i snd ids
        have hsnd : m.starter = some snd := h.msgs _ hpmem
        have hph : 2 ≤ (getA m snd).phase := h.sphase snd ids hpmem
        have hph1 : 2 ≤ (getA (setA m i { getA m i with inbox := rest })
            snd).phase := by
          rw [phase_setA (show ({ getA m i with inbox := rest } :
            UniAsyncAgentState).phase = (getA m i).phase from rfl) snd]
          exact hph
        obtain ⟨hI, hn⟩ := on_setup_inv hInv1 i snd ids o hlen1
          (by rw [hst1]; exact hsnd) hph1 hok
        exact ⟨hI, hn⟩
      · -- COMMIT
        rename_i snd v
        have hsnd : ∀ s, (setA m i { getA m i with inbox := rest }).starter =
            some s → (getA (setA m i { getA m i with inbox := rest })
              s).is_malicious = false → snd ≠ s := by
          intro s hs hm0 hss
          rw [hst1] at hs
          rw [is_malicious_setA (show ({ getA m i with inbox := rest } :
            UniAsyncAgentState).is_malicious = (getA m i).is_malicious
            from rfl) s] at hm0
          subst hss
          exact h.hcommit snd hs hm0 v hpmem
        obtain ⟨hI, hn⟩ := on_commit_inv hInv1 i snd v o hlen1 hsnd hok
        exact ⟨hI, hn⟩
      · -- REVEAL
        rename_i snd ids prs la
        have hrev : m.starter = some snd ∧
            (prs.map (fun pr => pr.1)).Nodup := h.msgs _ hpmem
        obtain ⟨hI, hn⟩ := on_reveal_inv hInv1 i snd ids prs la o hlen1
          (by rw [hst1]; exact hrev.1) hrev.2 hok
        exact ⟨hI, hn⟩
      · -- CHOOSE pattern: evaluating it raises, no successor state
        cases hok

lemma step_agents_inv : ∀ (L : List ℕ) (m : AsyncModelState) (o : List ℕ),
    AsyncInv m → (∀ i ∈ L, i < m.num_agents) →
    ∀ {m' : AsyncModelState} {o' : List ℕ},
    step_agents L m o = .ok (m', o') →
    AsyncInv m' ∧ m'.num_agents = m.num_agents := by
  intro L
  induction L with
  | nil =>
    intro m o h _ m' o' hok
    rw [step_agents] at hok
    have hm' := ok_pair_fst hok
    simp only at hm'
    subst hm'
    exact ⟨h, rfl⟩
  | cons i is ih =>
    intro m o h hL m' o' hok
    rw [step_agents] at hok
    rcases hstep : async_agent_step m i o with e | r
    · rw [hstep] at hok
      cases hok
    · rw [hstep] at hok
      obtain ⟨h1, hnum1⟩ := async_agent_step_inv h i o
        (hL i (List.mem_cons_self i is)) hstep
      obtain ⟨h2, hnum2⟩ := ih r.1 r.2 h1
        (fun j hj => by rw [hnum1]; exact hL j (List.mem_cons_of_mem i hj)) hok
      exact ⟨h2, hnum2.trans hnum1⟩

lemma push_inbox_len (ags : List UniAsyncAgentState) (d : ℕ)
    (p : AsyncPayload) : (push_inbox ags d p).length = ags.length := by
  simp [push_inbox]

lemma push_inbox_mem {ags : List UniAsyncAgentState} {d : ℕ}
    {p : AsyncPayload} {b : UniAsyncAgentState}
    (hb : b ∈ push_inbox ags d p) :
    b = { ags.getD d default with
      inbox := (ags.getD d default).inbox ++ [p] } ∨ b ∈ ags := by
  rw [push_inbox] at hb
  rcases List.mem_or_eq_of_mem_set hb with hb | hb
  · exact Or.inr hb
  · exact Or.inl hb

lemma push_inbox_getD (ags : List UniAsyncAgentState) (d : ℕ)
    (p : AsyncPayload) (j : ℕ) :
    ∃ ib, (push_inbox ags d p).getD j default =
      { ags.getD j default with inbox := ib } := by
  rw [push_inbox]
  by_cases hd : d < ags.length
  · by_cases hj : j = d
    · subst hj
      refine ⟨(ags.getD j default).inbox ++ [p], ?_⟩
      simp [List.getD_eq_getElem?_getD, List.getElem?_set_self, hd]
    · refine ⟨(ags.getD j default).inbox, ?_⟩
      simp [List.getD_eq_getElem?_getD,
        List.getElem?_set_ne (fun hh => hj hh.symm)]
  · have hset : ∀ a, ags.set d a = ags :=
      fun a => List.set_eq_of_length_le (by omega)
    rw [hset]
    exact ⟨(ags.getD j default).inbox, rfl⟩

lemma push_inbox_payloads {ags : List UniAsyncAgentState} {d : ℕ}
    {p : AsyncPayload} {x : AsyncPayload}
    (hx : x ∈ ((push_inbox ags d p).map (fun a => a.inbox)).flatten) :
    x = p ∨ x ∈ (ags.map (fun a => a.inbox)).flatten := by
  rw [List.mem_flatten] at hx
  obtain ⟨L, hL, hxL⟩ := hx
  rw [List.mem_map] at hL
  obtain ⟨b, hb, rfl⟩ := hL
  rcases push_inbox_mem hb with rfl | hb
  · show x = p ∨ _
    have hx1 : x ∈ (ags.getD d default).inbox ++ [p] := hxL
    rcases List.mem_append.1 hx1 with hx2 | hx2
    · by_cases hd : d < ags.length
      · refine Or.inr ?_
        rw [List.mem_flatten]
        refine ⟨(ags.getD d default).inbox, List.mem_map.2
          ⟨ags.getD d default, ?_, rfl⟩, hx2⟩
        rw [List.getD_eq_getElem?_getD, List.getElem?_eq_getElem hd]
        exact List.getElem_mem hd
      · rw [List.getD_eq_getElem?_getD,
          List.getElem?_eq_none (by omega)] at hx2
        exact absurd hx2 (List.not_mem_nil x)
    · rw [List.mem_singleton] at hx2
      exact Or.inl hx2
  · refine Or.inr ?_
    rw [List.mem_flatten]
    exact ⟨b.inbox, List.mem_map.2 ⟨b, hb, rfl⟩, hxL⟩

lemma deliver_go_facts (t : ℕ) : ∀ (Q : List PendingMessage)
    (ags : List UniAsyncAgentState),
    (deliver_go t Q ags).2.length = ags.length ∧
    (∀ x, x ∈ ((deliver_go t Q ags).1.map (fun pm => pm.payload) ++
        ((deliver_go t Q ags).2.map (fun a => a.inbox)).flatten) →
      x ∈ (Q.map (fun pm => pm.payload) ++
        (ags.map (fun a => a.inbox)).flatten)) ∧
    (∀ j, ∃ ib, (deliver_go t Q ags).2.getD j default =
      { ags.getD j default with inbox := ib }) ∧
    (∀ b ∈ (deliver_go t Q ags).2, ∃ a ∈ ags,
      b = { a with inbox := b.inbox }) := by
  intro Q
  induction Q with
  | nil =>
    intro ags
    refine ⟨rfl, fun x hx => ?_, fun j => ⟨(ags.getD j default).inbox, rfl⟩,
      fun b hb => ⟨b, hb, rfl⟩⟩
    exact hx
  | cons pm rest ih =>
    intro ags
    rw [deliver_go]
    split
    · -- delivered now
      obtain ⟨ihlen, ihsub, ihget, ihmem⟩ := ih (push_inbox ags pm.dest pm.payload)
      refine ⟨ihlen.trans (push_inbox_len ags pm.dest pm.payload), ?_, ?_, ?_⟩
      · intro x hx
        have hx2 := ihsub x hx
        rcases List.mem_append.1 hx2 with hx3 | hx3
        · exact List.mem_append.2 (Or.inl (List.mem_map.2 (by
            obtain ⟨q, hq, rfl⟩ := List.mem_map.1 hx3
            exact ⟨q, List.mem_cons_of_mem pm hq, rfl⟩)))
        · rcases push_inbox_payloads hx3 with rfl | hx4
          · exact List.mem_append.2 (Or.inl (List.mem_map.2
              ⟨pm, List.mem_cons_self pm rest, rfl⟩))
          · exact List.mem_append.2 (Or.inr hx4)
      · intro j
        obtain ⟨ib1, hib1⟩ := ihget j
        obtain ⟨ib2, hib2⟩ := push_inbox_getD ags pm.dest pm.payload j
        rw [hib1, hib2]
        exact ⟨ib1, rfl⟩
      · intro b hb
        obtain ⟨a, ha, hba⟩ := ihmem b hb
        by_cases hd : pm.dest < ags.length
        · rcases push_inbox_mem ha with rfl | ha2
          · refine ⟨ags.getD pm.dest default, ?_, ?_⟩
            · rw [List.getD_eq_getElem?_getD, List.getElem?_eq_getElem hd]
              exact List.getElem_mem hd
            · exact hba
          · exact ⟨a, ha2, hba⟩
        · have hnoop : push_inbox ags pm.dest pm.payload = ags := by
            rw [push_inbox]
            exact List.set_eq_of_length_le (by omega)
          rw [hnoop] at ha
          exact ⟨a, ha, hba⟩
    · -- nothing (more) due
      refine ⟨rfl, fun x hx => hx, fun j => ⟨(ags.getD j default).inbox, rfl⟩,
        fun b hb => ⟨b, hb, rfl⟩⟩

lemma deliver_due_inv {m : AsyncModelState} (h : AsyncInv m) :
    AsyncInv (deliver_due m) ∧ (deliver_due m).num_agents = m.num_agents := by
  obtain ⟨hlen, hsub, hget, hmem⟩ := deliver_go_facts m.ticks m.queue m.agents
  have hagents : (deliver_due m).agents = (deliver_go m.ticks m.queue m.agents).2 := rfl
  have hqueue : (deliver_due m).queue = (deliver_go m.ticks m.queue m.agents).1 := rfl
  have hsys : ∀ x ∈ SystemMsgs (deliver_due m), x ∈ SystemMsgs m := by
    intro x hx
    exact hsub x hx
  have hgetA : ∀ j, ∃ ib, getA (deliver_due m) j = { getA m j with inbox := ib } := by
    intro j
    exact hget j
  refine ⟨⟨?_, h.num_pos, h.starter_lt, ?_, h.reports, ?_, ?_, ?_, ?_⟩, rfl⟩
  · rw [hagents, hlen]
    exact h.agents_len
  · intro b hb
    rw [hagents] at hb
    obtain ⟨a, ha, hba⟩ := hmem b hb
    rw [hba]
    exact h.leaders a ha
  · intro p hp
    exact h.msgs p (hsys p hp)
  · intro s ids hp
    obtain ⟨ib, hib⟩ := hgetA s
    rw [hib]
    exact h.sphase s ids (hsys _ hp)
  · intro s hs hm0 v hmem'
    obtain ⟨ib, hib⟩ := hgetA s
    rw [hib] at hm0
    exact h.hcommit s hs hm0 v (hsys _ hmem')
  · intro s hs hm0
    obtain ⟨ib, hib⟩ := hgetA s
    rw [hib] at hm0
    obtain ⟨ib2, hib2⟩ := hgetA (succ_of (deliver_due m) s)
    rw [hib2]
    exact h.hcfp s hs hm0

lemma asyncInv_model_step {m : AsyncModelState} (h : AsyncInv m)
    (o : List ℕ) {m' : AsyncModelState}
    (hok : uni_async_model_step o m = .ok m') : AsyncInv m' := by
  rw [uni_async_model_step] at hok
  split at hok
  · rw [← Except.ok.inj hok]
    exact h
  · simp only [] at hok
    rcases hsa : step_agents (List.range (deliver_due m).num_agents)
        (deliver_due m) o with e | r
    · rw [hsa] at hok
      cases hok
    · rw [hsa] at hok
      obtain ⟨hd, hdn⟩ := deliver_due_inv h
      obtain ⟨h2, _⟩ := step_agents_inv
        (List.range (deliver_due m).num_agents) (deliver_due m) o hd
        (fun j hj => List.mem_range.1 hj) hsa
      rw [← Except.ok.inj hok]
      exact asyncInv_ticks h2 _

lemma getA_base (N starter : ℕ) (malicious : Finset ℕ) (max_delay : ℕ)
    (j : ℕ) :
    getA (async_base_model N starter malicious max_delay) j =
      if j < N then { UniAsyncAgentState.mkInit with
        is_malicious := decide (j ∈ malicious) } else default := by
  rw [getA, async_base_model]
  by_cases hj : j < N
  · rw [if_pos hj, List.getD_eq_getElem?_getD,
      List.getElem?_eq_getElem (by simpa using hj)]
    simp
  · rw [if_neg hj, List.getD_eq_getElem?_getD,
      List.getElem?_eq_none (by simpa using Nat.le_of_not_lt hj)]
    rfl

lemma systemMsgs_base (N starter : ℕ) (malicious : Finset ℕ)
    (max_delay : ℕ) {q : AsyncPayload}
    (hq : q ∈ SystemMsgs (async_base_model N starter malicious max_delay)) :
    False := by
  rw [SystemMsgs, async_base_model] at hq
  rcases List.mem_append.1 hq with hq | hq
  · exact List.not_mem_nil q hq
  · rw [List.mem_flatten] at hq
    obtain ⟨L, hL, hqL⟩ := hq
    rw [List.mem_map] at hL
    obtain ⟨b, hb, rfl⟩ := hL
    rw [List.mem_map] at hb
    obtain ⟨j, _, rfl⟩ := hb
    exact List.not_mem_nil q hqL

lemma asyncInv_base (N starter : ℕ) (malicious : Finset ℕ)
    (max_delay : ℕ) (hN : 1 ≤ N) (hs : starter < N) :
    AsyncInv (async_base_model N starter malicious max_delay) := by
  refine ⟨?_, hN, ?_, ?_, rfl, ?_, ?_, ?_, ?_⟩
  · simp [async_base_model]
  · intro s hseq
    rw [show (async_base_model N starter malicious max_delay).starter =
      some starter from rfl] at hseq
    rw [show (async_base_model N starter malicious max_delay).num_agents =
      N from rfl]
    rw [← Option.some.inj hseq]
    exact hs
  · intro b hb
    rw [show (async_base_model N starter malicious max_delay).agents =
      (List.range N).map (fun i => { UniAsyncAgentState.mkInit with
        is_malicious := decide (i ∈ malicious) }) from rfl] at hb
    rw [List.mem_map] at hb
    obtain ⟨j, _, rfl⟩ := hb
    rfl
  · intro p hp
    exact absurd hp (fun hq => systemMsgs_base N starter malicious max_delay hq)
  · intro s ids hp
    exact absurd hp (fun hq => systemMsgs_base N starter malicious max_delay hq)
  · intro s hseq hm0 v hp
    exact systemMsgs_base N starter malicious max_delay hp
  · intro s hseq hm0
    rw [getA_base]
    split <;> rfl

lemma asyncInv_init (N starter : ℕ) (malicious : Finset ℕ) (max_delay : ℕ)
    (o : List ℕ) (hN : 1 ≤ N) (hs : starter < N) :
    AsyncInv (mk_uni_async_model N starter malicious max_delay o) := by
  have hb := asyncInv_base N starter malicious max_delay hN hs
  have hilen : starter <
      (async_base_model N starter malicious max_delay).agents.length := by
    rw [hb.agents_len]
    exact hs
  rw [mk_uni_async_model, start_protocol]
  split
  · rename_i hphase
    exfalso
    apply hphase
    rw [getA_base, if_pos hs]
    rfl
  · refine asyncInv_setA_send hb starter _ hilen ?_ ?_ ?_ ?_ ?_
      (.collect starter {starter}) rfl ?_ ?_ o
    · show (getA (async_base_model N starter malicious max_delay)
        starter).leader = none
      rw [getA_base, if_pos hs]
      rfl
    · intro q hq
      exact absurd hq (fun hq2 =>
        systemMsgs_base N starter malicious max_delay
          (mem_SystemMsgs_of_inbox _ starter hilen hq2))
    · intro hp
      exfalso
      rw [getA_base, if_pos hs] at hp
      exact Nat.not_succ_le_zero 1 hp
    · exact rfl
    · intro s hseq hm0 hsc
      show (getA (async_base_model N starter malicious max_delay)
        starter).commit_from_predecessor = none
      rw [getA_base, if_pos hs]
      rfl
    · intro s ids heq
      cases heq
    · intro s hseq hm0 v heq
      cases heq

/-- The inductive invariant holds at every reachable observation state of
the asynchronous model. -/
theorem asyncInv_reachable {m : AsyncModelState} (h : AsyncReachable m) :
    AsyncInv m := by
  induction h with
  | init N starter malicious max_delay o hN hs hd =>
    exact asyncInv_init N starter malicious max_delay o hN hs
  | step m m' o hR hok ih =>
    exact asyncInv_model_step ih o hok

/-- A concrete asynchronous run: `N = 3`, starter 0, agent 2 malicious,
`max_message_delay = 1` (every delay is one tick), all oracle draws 0.
Agent 2 commits 0 but reveals `(0 + 1) % 3 = 1`; agent 0 detects the
mismatch when the REVEAL returns and aborts at the twelfth tick. -/
def asyncRun3 : ℕ → AsyncModelState
  | 0 => mk_uni_async_model 3 0 {2} 1 []
  | k + 1 => ((uni_async_model_step [] (asyncRun3 k)).toOption).getD
      (mk_uni_async_model 3 0 {2} 1 [])

/-- A concrete asynchronous run with a single honest agent (`N = 1`).
Its fourth step reaches the REVEAL finalization, which crashes building
the CHOOSE broadcast. -/
def asyncRun1 : ℕ → AsyncModelState
  | 0 => mk_uni_async_model 1 0 ∅ 1 []
  | k + 1 => ((uni_async_model_step [] (asyncRun1 k)).toOption).getD
      (mk_uni_async_model 1 0 ∅ 1 [])

lemma asyncRun3_reach : ∀ k ≤ 12, AsyncReachable (asyncRun3 k) := by
  have h0 : AsyncReachable (asyncRun3 0) :=
    AsyncReachable.init 3 0 {2} 1 [] (by norm_num) (by norm_num) (by norm_num)
  have hstep : ∀ k < 12, uni_async_model_step [] (asyncRun3 k) =
      .ok (asyncRun3 (k + 1)) := by decide
  intro k hk
  induction k with
  | zero => exact h0
  | succ n ih =>
    exact AsyncReachable.step _ _ [] (ih (by omega)) (hstep n (by omega))

/-- C1: For every reachable model state of the async variant,
`all_finished()` returns true if and only if every agent has a non-null
`leader` or the global `aborted` flag is true.  (On reachable states both
sides reduce to the abort flag: no CHOOSE message can ever be built, so no
leader report is ever registered and no agent's `leader` field survives a
step with a non-null value.) -/
theorem c1_all_finished_iff {m : AsyncModelState} (h : AsyncReachable m) :
    all_finished m = true ↔
      ((∀ i < m.num_agents, (getA m i).leader ≠ none) ∨
        m.abort_flag = true) := by
  have hI := asyncInv_reachable h
  constructor
  · intro hf
    rw [all_finished] at hf
    split at hf
    · rename_i hab
      exact Or.inr hab
    · split at hf
      · exact absurd hf (by decide)
      · exfalso
        have hcard : m.received_leader_reports.card = m.num_agents :=
          of_decide_eq_true hf
        rw [hI.reports, Finset.card_empty] at hcard
        have := hI.num_pos
        omega
  · intro hcase
    rcases hcase with hall | hab
    · exfalso
      refine hall 0 hI.num_pos ?_
      exact hI.leaders (getA m 0)
        (getA_mem m 0 (by rw [hI.agents_len]; exact hI.num_pos))
    · rw [all_finished, if_pos hab]

theorem c1_witness :
    all_finished (mk_uni_async_model 2 0 ∅ 1 []) = true ↔
      ((∀ i < (mk_uni_async_model 2 0 ∅ 1 []).num_agents,
        (getA (mk_uni_async_model 2 0 ∅ 1 []) i).leader ≠ none) ∨
        (mk_uni_async_model 2 0 ∅ 1 []).abort_flag = true) :=
  c1_all_finished_iff
    (AsyncReachable.init 2 0 ∅ 1 [] (by norm_num) (by norm_num) (by norm_num))

/-- C4: For every async run and every reachable state in which the global
`aborted` flag is true, no agent's `leader` field is non-null: every
agent's leader is the null punish sentinel.  (The reachable-state invariant
is in fact stronger: the leader fields are null in every reachable state,
aborted or not, because REVEAL finalization crashes before its CHOOSE
broadcast can deliver a leader to anyone.) -/
theorem c4_abort_leaders_null {m : AsyncModelState} (h : AsyncReachable m)
    (_hab : m.abort_flag = true) :
    ∀ i < m.num_agents, (getA m i).leader = none := by
  intro i hi
  have hI := asyncInv_reachable h
  exact hI.leaders (getA m i) (getA_mem m i (by rw [hI.agents_len]; exact hi))

theorem c4_witness :
    (asyncRun3 12).abort_flag = true ∧
    (∀ i < (asyncRun3 12).num_agents, (getA (asyncRun3 12) i).leader = none) :=
  ⟨by decide, c4_abort_leaders_null (asyncRun3_reach 12 (by norm_num))
    (by decide)⟩

/-- C2: The claim says the async message taxonomy has five kinds and that
the CHOOSE kind emitted by REVEAL finalization is one of the defined kinds.
The code defines only four members on `AsyncMessageType` (types.py);
the `AsyncMessageType.CHOOSE` attribute referenced by agent.py does not
resolve, so the REVEAL finalization of a concrete honest `N = 1` run
raises `AttributeError` instead of emitting a CHOOSE message.  The four
tuple components: CHOOSE does not resolve; every defined member is one of
the other four references; the enum member list is exactly the four; the
concrete run crashes at its fourth step after three successful steps. -/
theorem c2_choose_not_defined :
    resolve_enum_member .CHOOSE = none ∧
    (∀ t : AsyncMessageType, ∃ r : AgentEnumRef,
      resolve_enum_member r = some t ∧ r ≠ .CHOOSE) ∧
    async_message_type_members = [.COLLECT, .SETUP, .COMMIT, .REVEAL] ∧
    ((∀ k < 3, uni_async_model_step [] (asyncRun1 k) = .ok (asyncRun1 (k + 1))) ∧
      uni_async_model_step [] (asyncRun1 3) = .error (.chooseAttributeError 0)) := by
  refine ⟨rfl, ?_, rfl, by decide, by decide⟩
  intro t
  cases t with
  | COLLECT => exact ⟨.COLLECT, rfl, by decide⟩
  | SETUP => exact ⟨.SETUP, rfl, by decide⟩
  | COMMIT => exact ⟨.COMMIT, rfl, by decide⟩
  | REVEAL => exact ⟨.REVEAL, rfl, by decide⟩

/-- C3: The claim says each non-starter agent's CHOOSE handling makes the
starter count a report from that agent, so that `received_leader_reports`
reaches the full id set.  In the code this fails twice over: (1) the
starter's `__on_choose` calls `register_leader_report(self.unique_id)`,
registering the starter's own id regardless of who sent the
acknowledgement — formalized below: a successful `on_choose` at the starter
inserts the starter's id `i`, never the sender `s`; and (2) no CHOOSE
message can ever be built (missing enum member), so on every reachable
state `received_leader_reports` is empty and never equals `{0..N-1}`. -/
theorem c3_starter_registers_own_id :
    (∀ (m : AsyncModelState) (i s lid : ℕ) (ids : Finset ℕ)
      (pairs : List (ℕ × ℕ)) (o : List ℕ) (m' : AsyncModelState)
      (o' : List ℕ),
      m.starter = some i → (getA m i).id_set = ids →
      on_choose m i s lid ids pairs o = .ok (m', o') →
      m'.received_leader_reports = insert i m.received_leader_reports) ∧
    (∀ m, AsyncReachable m → m.received_leader_reports = ∅) := by
  constructor
  · intro m i s lid ids pairs o m' o' hst hids hok
    rw [on_choose] at hok
    rw [if_neg (by rw [hids]; exact fun hc => hc rfl)] at hok
    have hst1 : (setA m i { getA m i with
        leader := some lid, phase := 5 }).starter = m.starter := rfl
    rw [if_neg (by
      rw [hst1, hst]
      intro hc
      exact hc.2 rfl)] at hok
    have hm' := ok_pair_fst hok
    subst hm'
    have hcond : (setA m i { getA m i with
        leader := some lid, phase := 5 }).starter = some i := by
      rw [hst1, hst]
    rw [if_pos hcond]
    rfl
  · intro m h
    exact (asyncInv_reachable h).reports

theorem c3_witness :
    ∃ (m' : AsyncModelState) (o' : List ℕ),
      on_choose (mk_uni_async_model 2 0 ∅ 1 []) 0 1 5 {0} [] [] =
        .ok (m', o') ∧
      m'.received_leader_reports =
        insert 0 (mk_uni_async_model 2 0 ∅ 1 []).received_leader_reports ∧
      (asyncRun3 12).received_leader_reports = ∅ := by
  have hok : on_choose (mk_uni_async_model 2 0 ∅ 1 []) 0 1 5 {0} [] [] =
      .ok (((on_choose (mk_uni_async_model 2 0 ∅ 1 []) 0 1 5 {0} []
          []).toOption.getD (mk_uni_async_model 2 0 ∅ 1 [], [])).1,
        ((on_choose (mk_uni_async_model 2 0 ∅ 1 []) 0 1 5 {0} []
          []).toOption.getD (mk_uni_async_model 2 0 ∅ 1 [], [])).2) := by
    decide
  exact ⟨_, _, hok,
    c3_starter_registers_own_id.1 _ 0 1 5 {0} [] [] _ _
      (by decide) (by decide) hok,
    c3_starter_registers_own_id.2 _ (asyncRun3_reach 12 (by norm_num))⟩

/-- C9: For every async agent, if the REVEAL pairs list already contains a
pair with `pid` equal to the agent's own id, the append step is the
identity (no second pair appended, no lazy draw, no state change); on a
successful handler run the message is forwarded with the pairs unchanged;
and on every reachable state the pairs of every in-flight REVEAL message
carry pairwise-distinct agent ids. -/
theorem c9_reveal_append_idempotent :
    (∀ (m : AsyncModelState) (i : ℕ) (pairs : List (ℕ × ℕ)) (o : List ℕ),
      (∃ pr ∈ pairs, pr.1 = i) →
      reveal_append m i pairs o = (m, pairs, o)) ∧
    (∀ (m : AsyncModelState) (i snd : ℕ) (ids : Finset ℕ)
      (pairs : List (ℕ × ℕ)) (o : List ℕ) (m' : AsyncModelState)
      (o' : List ℕ),
      (∃ pr ∈ pairs, pr.1 = i) →
      reveal_rest m i snd ids pairs o = .ok (m', o') →
      m'.agents = m.agents ∧
      ∃ pm ∈ m'.queue, pm.payload = .reveal snd ids pairs (some i)) ∧
    (∀ m, AsyncReachable m → ∀ s ids prs la,
      AsyncPayload.reveal s ids prs la ∈ SystemMsgs m →
      (prs.map (fun pr => pr.1)).Nodup) := by
  have happ : ∀ (m : AsyncModelState) (i : ℕ) (pairs : List (ℕ × ℕ))
      (o : List ℕ), (∃ pr ∈ pairs, pr.1 = i) →
      reveal_append m i pairs o = (m, pairs, o) := by
    intro m i pairs o hex
    obtain ⟨pr, hpr, hpri⟩ := hex
    rw [reveal_append, if_neg]
    intro hall
    have h2 := List.all_eq_true.1 hall pr hpr
    rw [decide_eq_true_eq] at h2
    exact h2 hpri
  refine ⟨happ, ?_, ?_⟩
  · intro m i snd ids pairs o m' o' hex hok
    rw [reveal_rest, happ m i pairs o hex] at hok
    split at hok
    · simp only [] at hok
      split at hok <;> cases hok
    · have hm' := ok_pair_fst hok
      subst hm'
      exact ⟨rfl, ⟨_, (mem_insertPM _ _ _).2 (Or.inl rfl), rfl⟩⟩
  · intro m h s ids prs la hmem
    exact ((asyncInv_reachable h).msgs _ hmem).2

theorem c9_witness :
    reveal_append (mk_uni_async_model 2 0 ∅ 1 []) 0 [(0, 1)] [] =
      (mk_uni_async_model 2 0 ∅ 1 [], [(0, 1)], []) :=
  c9_reveal_append_idempotent.1 (mk_uni_async_model 2 0 ∅ 1 []) 0
    [(0, 1)] [] ⟨(0, 1), List.mem_singleton.2 rfl, rfl⟩

/-- C10: honest-starter discipline.  (1) On every reachable state with an
honest starter `s`: whenever the SETUP message of `s` is anywhere in the
system, `s` is already in phase 2; no COMMIT message of `s` is ever in the
system; and the successor of `s` never holds a value in
`commit_from_predecessor`.  (2) When an honest agent in phase ≥ 2 whose
`highest` equals its own id receives back its own SETUP, `__on_setup` skips
the commit branch entirely and runs only the tail (phase 3 + initial
REVEAL).  (3) When an agent with no commitment yet appends to a REVEAL whose
pairs miss its id, the contribution is drawn by the lazy fallback, setting
both `N_rand_commit` and `N_rand_reveal`. -/
theorem c10_honest_starter_no_commit :
    (∀ m, AsyncReachable m → ∀ s, m.starter = some s →
      (getA m s).is_malicious = false →
      (∀ ids, AsyncPayload.setup s ids ∈ SystemMsgs m →
        2 ≤ (getA m s).phase) ∧
      (∀ v, AsyncPayload.commit s v ∉ SystemMsgs m) ∧
      (getA m (succ_of m s)).commit_from_predecessor = none) ∧
    (∀ (m : AsyncModelState) (i : ℕ) (ids : Finset ℕ) (o : List ℕ),
      (getA m i).is_malicious = false → 2 ≤ (getA m i).phase →
      ((i : ℕ) : ℤ) = (getA m i).highest →
      on_setup m i i ids o =
        .ok (setup_tail (setA m i (setup_fill_id_set (getA m i) ids))
          i i ids o)) ∧
    (∀ (m : AsyncModelState) (i : ℕ) (pairs : List (ℕ × ℕ)) (o : List ℕ),
      pairs.all (fun pr => pr.1 ≠ i) = true →
      (getA m i).N_rand_reveal = none → (getA m i).N_rand_commit = none →
      reveal_append m i pairs o =
        (setA m i { getA m i with
            N_rand_commit := some (draw_commit m.num_agents o).1
            N_rand_reveal := some (draw_commit m.num_agents o).1 },
          pairs ++ [(i, (draw_commit m.num_agents o).1)],
          (draw_commit m.num_agents o).2)) := by
  refine ⟨?_, ?_, ?_⟩
  · intro m h s hs hmal
    have I := asyncInv_reachable h
    exact ⟨fun ids => I.sphase s ids, I.hcommit s hs hmal, I.hcfp s hs hmal⟩
  · intro m i ids o hmal hph hh
    rw [on_setup]
    simp only []
    rw [if_neg (not_not_intro hh), if_neg]
    intro hcon
    rcases hcon with hlt | hc
    · rw [setup_fill_phase] at hlt
      omega
    · have hm := hc.1
      rw [setup_fill_malicious, hmal] at hm
      exact Bool.false_ne_true hm
  · intro m i pairs o hall h1 h2
    rw [reveal_append]
    simp only []
    rw [if_pos hall, h1, h2]

theorem c10_witness :
    (getA (mk_uni_async_model 3 0 ∅ 1 [])
      (succ_of (mk_uni_async_model 3 0 ∅ 1 []) 0)).commit_from_predecessor
        = none ∧
    reveal_append (mk_uni_async_model 3 0 ∅ 1 []) 1 [] [] =
      (setA (mk_uni_async_model 3 0 ∅ 1 [])
        1 { getA (mk_uni_async_model 3 0 ∅ 1 []) 1 with
            N_rand_commit := some 0
            N_rand_reveal := some 0 },
        [(1, 0)], []) := by
  constructor
  · exact (c10_honest_starter_no_commit.1 _
      (AsyncReachable.init 3 0 ∅ 1 [] (by decide) (by decide) (by decide))
      0 (by decide) (by decide)).2.2
  · exact c10_honest_starter_no_commit.2.2 (mk_uni_async_model 3 0 ∅ 1 [])
      1 [] [] (by decide) (by decide) (by decide)

/-- C6 counterexample: in the concrete three-agent run that finishes (the
abort flag terminates it at the twelfth tick), agent 1 did commit a value
(`N_rand_commit = some 0`), yet agent 0's `commit_records` has no entry for
agent 1: a COMMIT is recorded only by the committer's immediate successor,
because the forwarded copy keeps the original `sender_id` and fails the
predecessor check at the next hop.  The first conjunct certifies that every
listed step of the run is a genuine (exception-free) model step. -/
theorem c6_counterexample :
    (∀ k < 12, uni_async_model_step [] (asyncRun3 k) = .ok (asyncRun3 (k + 1))) ∧
    all_finished (asyncRun3 12) = true ∧
    (getA (asyncRun3 12) 1).N_rand_commit = some 0 ∧
    dlookup 1 (getA (asyncRun3 12) 0).commit_records = none :=
  ⟨by decide, by decide, by decide, by decide⟩

/-- C6 (amended): `__on_commit` records the committed value and forwards the
message unchanged only when the sender is the agent's ring predecessor; any
other COMMIT is silently dropped with no state change.  Consequently only
the committer's immediate successor ever records the value — the forwarded
copy dies at the next hop — and `commit_records` never accumulates every
other participant's commitment. -/
theorem c6_commit_forward_only_predecessor :
    ∀ (m : AsyncModelState) (i snd v : ℕ) (o : List ℕ),
      (snd ≠ pred_of m i → on_commit m i snd v o = .ok (m, o)) ∧
      (snd = pred_of m i →
        on_commit m i snd v o =
          .ok (send_to_successor
            (setA m i { getA m i with
                commit_from_predecessor := some v
                commit_records := dinsert snd v (getA m i).commit_records })
            i (.commit snd v) o)) := by
  intro m i snd v o
  constructor
  · intro h
    rw [on_commit, if_pos h]
  · intro h
    rw [on_commit, if_neg (not_not_intro h)]

theorem c6_witness :
    on_commit (mk_uni_async_model 2 0 ∅ 1 []) 0 0 5 [] =
      .ok (mk_uni_async_model 2 0 ∅ 1 [], []) :=
  (c6_commit_forward_only_predecessor
    (mk_uni_async_model 2 0 ∅ 1 []) 0 0 5 []).1 (by decide)

/-- C7 counterexample: in the synchronous variant an inadmissible SETUP is
not silently dropped.  On the concrete configuration `c7_m`, agent 2
(fresh: phase 0, `highest = -1`) processes `[SETUP from 1, COLLECT from 1]`:
the source semantics executes the punish path on the SETUP — writing
`leader = PUNISH_STATE` and returning early, so the following COLLECT is
abandoned and the agent stays in phase 0 — while the spec-modelled drop
semantics would process the COLLECT and reach phase 1.  The last conjunct
exhibits the punish write and the early-return flag on the single
inadmissible SETUP. -/
theorem c7_counterexample :
    (getSA (process_inbox c7_m 2
      [.setup 1 {1}, .collect 1 {0, 1}]).1 2).phase = 0 ∧
    (process_inbox c7_m 2 [.setup 1 {1}, .collect 1 {0, 1}]).2 = true ∧
    (getSA (process_inbox_dropsem c7_m 2
      [.setup 1 {1}, .collect 1 {0, 1}]).1 2).phase = 1 ∧
    process_message c7_m 2 (.setup 1 {1}) =
      (setSA c7_m 2 { getSA c7_m 2 with leader := none }, true) :=
  ⟨by decide, by decide, by decide, by decide⟩

/-- C7 (amended): the silent-drop discipline holds in the asynchronous
variant — a SETUP from a non-`highest` originator, a COMMIT from a
non-predecessor, a REVEAL with the wrong id set, and a COLLECT matching
neither branch all leave the model unchanged — but in the synchronous
variant an inadmissible SETUP (not already past phase 1, and failing the
originator/phase/count check) takes the punish path: it writes the punish
sentinel into `leader` and returns early, abandoning the rest of the
agent's step instead of silently dropping the message. -/
theorem c7_inadmissible_drop_or_punish :
    (∀ (m : AsyncModelState) (i snd : ℕ) (ids : Finset ℕ) (o : List ℕ),
      ((snd : ℕ) : ℤ) ≠ (getA m i).highest →
      on_setup m i snd ids o = .ok (m, o)) ∧
    (∀ (m : AsyncModelState) (i snd v : ℕ) (o : List ℕ),
      snd ≠ pred_of m i → on_commit m i snd v o = .ok (m, o)) ∧
    (∀ (m : AsyncModelState) (i snd : ℕ) (ids : Finset ℕ)
      (pairs : List (ℕ × ℕ)) (la : Option ℕ) (o : List ℕ),
      ids ≠ (getA m i).id_set →
      on_reveal m i snd ids pairs la o = .ok (m, o)) ∧
    (∀ (m : AsyncModelState) (i snd : ℕ) (ids : Finset ℕ) (o : List ℕ),
      ¬(((snd : ℕ) : ℤ) > (getA m i).highest ∧ (getA m i).phase ≤ 1) →
      ¬(snd = i ∧ ids.card = m.num_agents) →
      on_collect m i snd ids o = .ok (m, o)) ∧
    (∀ (m : SyncModelState) (i s : ℕ) (P : Finset ℕ),
      ¬(1 < (getSA m i).phase) →
      ¬((s : ℤ) = (getSA m i).highest ∧ (getSA m i).phase = 1 ∧
        (getSA m i).count = 0) →
      process_message m i (.setup s P) =
        (setSA m i { getSA m i with leader := none }, true)) := by
  refine ⟨?_, ?_, ?_, ?_, ?_⟩
  · intro m i snd ids o h
    rw [on_setup]
    simp only []
    rw [if_pos h]
  · intro m i snd v o h
    rw [on_commit, if_pos h]
  · intro m i snd ids pairs la o h
    rw [on_reveal]
    rw [if_pos (Or.inr h)]
  · intro m i snd ids o h1 h2
    rw [on_collect]
    rw [if_neg h1, if_neg h2]
  · intro m i s P h1 h2
    simp only [process_message]
    rw [if_neg h1, if_pos h2]

theorem c7_witness :
    on_commit (mk_uni_async_model 3 0 ∅ 1 []) 1 1 4 [] =
      .ok (mk_uni_async_model 3 0 ∅ 1 [], []) ∧
    process_message (mk_uni_sync_model 2 0) 1 (.setup 0 {0}) =
      (setSA (mk_uni_sync_model 2 0) 1
        { getSA (mk_uni_sync_model 2 0) 1 with leader := none }, true) :=
  ⟨c7_inadmissible_drop_or_punish.2.1 (mk_uni_async_model 3 0 ∅ 1 [])
      1 1 4 [] (by decide),
    c7_inadmissible_drop_or_punish.2.2.2.2 (mk_uni_sync_model 2 0)
      1 0 {0} (by decide) (by decide)⟩

/-- C8 counterexample: a COLLECT whose sender is ≤ the agent's `highest` is
not always a no-op.  In the concrete three-agent async model started by
agent 2, agent 2 has `highest = 2` and phase 1; receiving back its own
COLLECT (sender 2 ≤ highest 2) with the full id set moves it to phase 2 and
enqueues a SETUP message — state change and send, despite `sender_id ≤
highest`. -/
theorem c8_counterexample :
    ((2 : ℤ) ≤ (getA (mk_uni_async_model 3 2 ∅ 1 []) 2).highest) ∧
    (getA (mk_uni_async_model 3 2 ∅ 1 []) 2).phase = 1 ∧
    (getA ((on_collect (mk_uni_async_model 3 2 ∅ 1 []) 2 2 {0, 1, 2}
      []).toOption.getD (mk_uni_async_model 3 2 ∅ 1 [], [])).1 2).phase = 2 ∧
    ((on_collect (mk_uni_async_model 3 2 ∅ 1 []) 2 2 {0, 1, 2}
      []).toOption.getD (mk_uni_async_model 3 2 ∅ 1 [], [])).1.queue.length =
      (mk_uni_async_model 3 2 ∅ 1 []).queue.length + 1 :=
  ⟨by decide, by decide, by decide, by decide⟩

/-- C8 (amended): a COLLECT with `sender_id ≤ highest` is a local no-op
except in the originator-return case.  Asynchronously: if additionally it
is not the case that the agent is the sender with a full id set, the
handler returns the model unchanged.  Synchronously: an active agent
(phase ≥ 1) receiving a COLLECT with `sender ≤ highest` that does not
satisfy the originator-return test (`sender = highest` and `own id =
highest`) leaves the state unchanged and sends nothing. -/
theorem c8_collect_low_sender_noop :
    (∀ (m : AsyncModelState) (i snd : ℕ) (ids : Finset ℕ) (o : List ℕ),
      ((snd : ℕ) : ℤ) ≤ (getA m i).highest →
      ¬(snd = i ∧ ids.card = m.num_agents) →
      on_collect m i snd ids o = .ok (m, o)) ∧
    (∀ (m : SyncModelState) (i s : ℕ) (P : Finset ℕ),
      1 ≤ (getSA m i).phase →
      ((s : ℕ) : ℤ) ≤ (getSA m i).highest →
      ¬((s : ℤ) = (getSA m i).highest ∧ (i : ℤ) = (getSA m i).highest) →
      process_message m i (.collect s P) = (m, false)) := by
  constructor
  · intro m i snd ids o h1 h2
    rw [on_collect]
    rw [if_neg (fun hc => (not_lt.2 h1) hc.1), if_neg h2]
  · intro m i s P h0 h1 h2
    simp only [process_message]
    rw [if_neg (by omega : ¬(getSA m i).phase = 0)]
    rw [if_neg (fun hc => (not_lt.2 h1) hc.2), if_neg h2]

theorem c8_witness :
    on_collect (mk_uni_async_model 2 1 ∅ 1 []) 1 0 {0} [] =
      .ok (mk_uni_async_model 2 1 ∅ 1 [], []) ∧
    process_message (mk_uni_sync_model 2 1) 1 (.collect 0 {0}) =
      (mk_uni_sync_model 2 1, false) :=
  ⟨c8_collect_low_sender_noop.1 (mk_uni_async_model 2 1 ∅ 1 [])
      1 0 {0} [] (by decide) (by decide),
    c8_collect_low_sender_noop.2 (mk_uni_sync_model 2 1)
      1 0 {0} (by decide) (by decide) (by decide)⟩

lemma getSA_setSA_ne (m : SyncModelState) (i j : ℕ) (a : UniSyncAgentState)
    (h : j ≠ i) : getSA (setSA m i a) j = getSA m j := by
  simp [getSA, setSA, List.getD_eq_getElem?_getD,
    List.getElem?_set_ne (fun hh => h hh.symm)]

lemma getSA_setSA_self (m : SyncModelState) (i : ℕ) (a : UniSyncAgentState)
    (h : i < m.agents.length) : getSA (setSA m i a) i = a := by
  simp [getSA, setSA, List.getD_eq_getElem?_getD, List.getElem?_set_self, h]

lemma getSA_eq_getElem (m : SyncModelState) (i : ℕ) (h : i < m.agents.length) :
    getSA m i = m.agents[i] := by
  simp [getSA, List.getD_eq_getElem?_getD, List.getElem?_eq_getElem h]

lemma getSA_mem (m : SyncModelState) (i : ℕ) (h : i < m.agents.length) :
    getSA m i ∈ m.agents := by
  rw [getSA_eq_getElem m i h]; exact List.getElem_mem h

lemma mem_SyncSystemMsgs_of_inbox (m : SyncModelState) (i : ℕ)
    (h : i < m.agents.length) {q : SyncMsg}
    (hq : q ∈ (getSA m i).inbox) : q ∈ SyncSystemMsgs m := by
  rw [SyncSystemMsgs]
  refine List.mem_append.2 (Or.inr ?_)
  rw [List.mem_flatten]
  exact ⟨(getSA m i).inbox, List.mem_map.2 ⟨getSA m i, getSA_mem m i h, rfl⟩, hq⟩

lemma mem_SyncSystemMsgs_setSA {m : SyncModelState} {i : ℕ}
    {a : UniSyncAgentState} {q : SyncMsg}
    (h : q ∈ SyncSystemMsgs (setSA m i a)) :
    q ∈ a.inbox ∨ q ∈ SyncSystemMsgs m := by
  rw [SyncSystemMsgs] at h
  rcases List.mem_append.1 h with h | h
  · exact Or.inr (List.mem_append.2 (Or.inl h))
  · rw [List.mem_flatten] at h
    obtain ⟨L, hL, hqL⟩ := h
    rw [List.mem_map] at hL
    obtain ⟨b, hb, rfl⟩ := hL
    rcases List.mem_or_eq_of_mem_set hb with hb | rfl
    · refine Or.inr (List.mem_append.2 (Or.inr ?_))
      rw [List.mem_flatten]
      exact ⟨b.inbox, List.mem_map.2 ⟨b, hb, rfl⟩, hqL⟩
    · exact Or.inl hqL

lemma mem_SyncSystemMsgs_send {m : SyncModelState} {dst : ℕ} {p : SyncMsg}
    {q : SyncMsg} (h : q ∈ SyncSystemMsgs (sync_send m dst p)) :
    q = p ∨ q ∈ SyncSystemMsgs m := by
  rw [SyncSystemMsgs] at h
  rcases List.mem_append.1 h with h | h
  · rw [List.mem_flatten] at h
    obtain ⟨L, hL, hqL⟩ := h
    rcases List.mem_or_eq_of_mem_set hL with hL | rfl
    · refine Or.inr (List.mem_append.2 (Or.inl ?_))
      rw [List.mem_flatten]
      exact ⟨L, hL, hqL⟩
    · rcases List.mem_append.1 hqL with hq2 | hq2
      · by_cases hd : dst < m.current_round_messages.length
        · refine Or.inr (List.mem_append.2 (Or.inl ?_))
          rw [List.mem_flatten]
          refine ⟨m.current_round_messages.getD dst [], ?_, hq2⟩
          rw [List.getD_eq_getElem?_getD, List.getElem?_eq_getElem hd]
          exact List.getElem_mem hd
        · rw [List.getD_eq_getElem?_getD,
            List.getElem?_eq_none (by omega)] at hq2
          exact absurd hq2 (List.not_mem_nil q)
      · rw [List.mem_singleton] at hq2
        exact Or.inl hq2
  · refine Or.inr (List.mem_append.2 (Or.inr ?_))
    exact h

lemma SMsgOK_congr {m m' : SyncModelState}
    (hnum : m'.num_agents = m.num_agents)
    (hnr : ∀ s, (getSA m' s).N_rand = (getSA m s).N_rand) {msg : SyncMsg}
    (h : SMsgOK m msg) : SMsgOK m' msg := by
  cases msg with
  | collect s P => rw [SMsgOK, hnum]; exact h
  | setup s P => rw [SMsgOK, hnum]; exact h
  | random s v => exact ⟨(hnr s).trans h.1, hnum ▸ h.2⟩

lemma leaderRule_congr {m m' : SyncModelState}
    (hnum : m'.num_agents = m.num_agents)
    (hnr : ∀ s, (getSA m' s).N_rand = (getSA m s).N_rand) :
    leaderRule m' = leaderRule m := by
  rw [leaderRule, leaderRule, hnum]
  congr 2
  exact Finset.sum_congr rfl (fun s _ => by rw [hnr s])

lemma nrand_setSA {m : SyncModelState} {i : ℕ} {a' : UniSyncAgentState}
    (hN : a'.N_rand = (getSA m i).N_rand) :
    ∀ s, (getSA (setSA m i a') s).N_rand = (getSA m s).N_rand := by
  intro s
  by_cases hsi : s = i
  · subst hsi
    by_cases hlt : s < m.agents.length
    · rw [getSA_setSA_self m s a' hlt, hN]
    · have hset : m.agents.set s a' = m.agents :=
        List.set_eq_of_length_le (by omega)
      show ((m.agents.set s a').getD s default).N_rand = _
      rw [hset]
      rfl
  · rw [getSA_setSA_ne m i s a' hsi]

/-- Preservation of the synchronous invariant under replacing agent `i`,
with all hypotheses phrased over the original state. -/
lemma syncInv_setSA {m : SyncModelState} (hI : SyncInv m) (i : ℕ)
    (a' : UniSyncAgentState) (_hi : i < m.num_agents)
    (hN : a'.N_rand = (getSA m i).N_rand)
    (hinbox : ∀ msg ∈ a'.inbox, msg ∈ SyncSystemMsgs m)
    (hentries : ∀ p ∈ a'.all_N_rand,
      (getSA m p.1).N_rand = (p.2 : ℤ) ∧ p.1 < m.num_agents)
    (hnodup : (a'.all_N_rand.map (fun p => p.1)).Nodup)
    (hidset : 2 ≤ a'.phase → a'.id_set = Finset.range m.num_agents)
    (hneg : a'.phase ≤ 2 → a'.N_rand = -1)
    (hpos : a'.phase = 3 → 0 ≤ a'.N_rand)
    (hple : a'.phase ≤ 3)
    (hleader : ∀ l, a'.leader = some l →
      (∀ s < m.num_agents, 0 ≤ (getSA m s).N_rand) ∧ l = leaderRule m ∧
      a'.id_set = Finset.range m.num_agents) :
    SyncInv (setSA m i a') := by
  have hnr := nrand_setSA hN
  have hnum : (setSA m i a').num_agents = m.num_agents := rfl
  have hmem : ∀ a, a ∈ (setSA m i a').agents → a = a' ∨ a ∈ m.agents := by
    intro a ha
    rcases List.mem_or_eq_of_mem_set ha with ha | ha
    · exact Or.inr ha
    · exact Or.inl ha
  refine ⟨?_, ?_, ?_, ?_, ?_, ?_, ?_, ?_, ?_, ?_, ?_⟩
  · show (m.agents.set i a').length = m.num_agents
    rw [List.length_set]; exact hI.alen
  · exact hI.clen
  · exact hI.npos
  · intro msg hmsg
    rcases mem_SyncSystemMsgs_setSA hmsg with h | h
    · exact SMsgOK_congr hnum hnr (hI.msgs msg (hinbox msg h))
    · exact SMsgOK_congr hnum hnr (hI.msgs msg h)
  · intro a ha p hp
    rcases hmem a ha with rfl | ha
    · exact ⟨(hnr p.1).trans (hentries p hp).1, (hentries p hp).2⟩
    · exact ⟨(hnr p.1).trans (hI.entries a ha p hp).1, (hI.entries a ha p hp).2⟩
  · intro a ha
    rcases hmem a ha with rfl | ha
    · exact hnodup
    · exact hI.keys_nodup a ha
  · intro a ha hph
    rcases hmem a ha with rfl | ha
    · exact hidset hph
    · exact hI.idset a ha hph
  · intro a ha hph
    rcases hmem a ha with rfl | ha
    · exact hneg hph
    · exact hI.nrand_neg a ha hph
  · intro a ha hph
    rcases hmem a ha with rfl | ha
    · exact hpos hph
    · exact hI.nrand_pos a ha hph
  · intro a ha
    rcases hmem a ha with rfl | ha
    · exact hple
    · exact hI.phase_le a ha
  · intro a ha l hl
    have hcon : (∀ s < m.num_agents, 0 ≤ (getSA m s).N_rand) ∧
        l = leaderRule m ∧ a.id_set = Finset.range m.num_agents := by
      rcases hmem a ha with rfl | ha
      · exact hleader l hl
      · exact hI.leader_ok a ha l hl
    refine ⟨fun s hs => ?_, ?_, hcon.2.2⟩
    · rw [hnr s]; exact hcon.1 s hs
    · rw [leaderRule_congr hnum hnr]; exact hcon.2.1

/-- Preservation of the synchronous invariant under buffering one
well-formed message. -/
lemma syncInv_send {m : SyncModelState} (hI : SyncInv m) (dst : ℕ)
    {q : SyncMsg} (hq : SMsgOK m q) : SyncInv (sync_send m dst q) := by
  have hnum : (sync_send m dst q).num_agents = m.num_agents := rfl
  have hnr : ∀ s, (getSA (sync_send m dst q) s).N_rand =
      (getSA m s).N_rand := fun s => rfl
  refine ⟨?_, ?_, ?_, ?_, ?_, ?_, ?_, ?_, ?_, ?_, ?_⟩
  · exact hI.alen
  · show (m.current_round_messages.set dst _).length = m.num_agents
    rw [List.length_set]; exact hI.clen
  · exact hI.npos
  · intro msg hmsg
    rcases mem_SyncSystemMsgs_send hmsg with rfl | h
    · exact SMsgOK_congr hnum hnr hq
    · exact SMsgOK_congr hnum hnr (hI.msgs msg h)
  · exact hI.entries
  · exact hI.keys_nodup
  · exact hI.idset
  · exact hI.nrand_neg
  · exact hI.nrand_pos
  · exact hI.phase_le
  · intro a ha l hl
    have hcon := hI.leader_ok a ha l hl
    refine ⟨hcon.1, ?_, hcon.2.2⟩
    rw [leaderRule_congr hnum hnr]; exact hcon.2.1

lemma dlookup_none {k : ℕ} {l : List (ℕ × ℕ)} (h : dlookup k l = none) :
    ∀ p ∈ l, p.1 ≠ k := by
  intro p hp hk
  rw [dlookup, Option.map_eq_none'] at h
  exact (List.find?_eq_none.mp h) p hp (decide_eq_true hk)

lemma dinsert_of_not_key {k v : ℕ} {l : List (ℕ × ℕ)}
    (h : ∀ p ∈ l, p.1 ≠ k) : dinsert k v l = l ++ [(k, v)] := by
  rw [dinsert, if_neg]
  intro hs
  obtain ⟨p, hp⟩ := Option.isSome_iff_exists.mp hs
  have h1 := List.find?_some hp
  have h2 := List.mem_of_find?_eq_some hp
  exact h p h2 (of_decide_eq_true h1)

/-- Under the invariant an agent whose phase is still at most 2 cannot have
elected a leader (its own `N_rand` is still `-1`). -/
lemma no_leader_of_low_phase {m : SyncModelState} (hI : SyncInv m) {i : ℕ}
    (hi : i < m.num_agents) (hph : (getSA m i).phase ≤ 2) :
    (getSA m i).leader = none := by
  have hlen : i < m.agents.length := by rw [hI.alen]; exact hi
  cases hla : (getSA m i).leader with
  | none => rfl
  | some l =>
    have h1 := (hI.leader_ok _ (getSA_mem m i hlen) l hla).1 i hi
    rw [hI.nrand_neg _ (getSA_mem m i hlen) hph] at h1
    exact absurd h1 (by norm_num)

/-- Specialization of `syncInv_setSA` to an update that keeps `N_rand`, the
recorded contributions, and (up to thinning) the inbox of agent `i`. -/
lemma syncInv_modify {m : SyncModelState} (hI : SyncInv m) (i : ℕ)
    (a' : UniSyncAgentState) (hi : i < m.num_agents)
    (hN : a'.N_rand = (getSA m i).N_rand)
    (hinb : ∀ msg ∈ a'.inbox, msg ∈ (getSA m i).inbox)
    (hentr : a'.all_N_rand = (getSA m i).all_N_rand)
    (hidset : 2 ≤ a'.phase → a'.id_set = Finset.range m.num_agents)
    (hneg : a'.phase ≤ 2 → a'.N_rand = -1)
    (hpos : a'.phase = 3 → 0 ≤ a'.N_rand)
    (hple : a'.phase ≤ 3)
    (hleader : (a'.leader = (getSA m i).leader ∧
      a'.id_set = (getSA m i).id_set) ∨ a'.leader = none) :
    SyncInv (setSA m i a') ∧ (setSA m i a').num_agents = m.num_agents ∧
    ∀ s, (getSA (setSA m i a') s).N_rand = (getSA m s).N_rand := by
  have hlen : i < m.agents.length := by rw [hI.alen]; exact hi
  refine ⟨syncInv_setSA hI i a' hi hN
    (fun msg h => mem_SyncSystemMsgs_of_inbox m i hlen (hinb msg h))
    (by rw [hentr]; exact hI.entries _ (getSA_mem m i hlen))
    (by rw [hentr]; exact hI.keys_nodup _ (getSA_mem m i hlen))
    hidset hneg hpos hple ?_, rfl, nrand_setSA hN⟩
  intro l hl
  rcases hleader with ⟨h, hid⟩ | h
  · rw [h] at hl
    have hcon := hI.leader_ok _ (getSA_mem m i hlen) l hl
    exact ⟨hcon.1, hcon.2.1, by rw [hid]; exact hcon.2.2⟩
  · rw [h] at hl
    cases hl

/-- `syncInv_modify` followed by buffering one well-formed message. -/
lemma syncInv_modify_send {m : SyncModelState} (hI : SyncInv m) (i : ℕ)
    (a' : UniSyncAgentState) (dst : ℕ) (q : SyncMsg) (hi : i < m.num_agents)
    (hN : a'.N_rand = (getSA m i).N_rand)
    (hinb : ∀ msg ∈ a'.inbox, msg ∈ (getSA m i).inbox)
    (hentr : a'.all_N_rand = (getSA m i).all_N_rand)
    (hidset : 2 ≤ a'.phase → a'.id_set = Finset.range m.num_agents)
    (hneg : a'.phase ≤ 2 → a'.N_rand = -1)
    (hpos : a'.phase = 3 → 0 ≤ a'.N_rand)
    (hple : a'.phase ≤ 3)
    (hleader : (a'.leader = (getSA m i).leader ∧
      a'.id_set = (getSA m i).id_set) ∨ a'.leader = none)
    (hq : SMsgOK m q) :
    SyncInv (sync_send (setSA m i a') dst q) ∧
    (sync_send (setSA m i a') dst q).num_agents = m.num_agents ∧
    ∀ s, (getSA (sync_send (setSA m i a') dst q) s).N_rand =
      (getSA m s).N_rand := by
  obtain ⟨h1, h2, h3⟩ := syncInv_modify hI i a' hi hN hinb hentr hidset hneg
    hpos hple hleader
  exact ⟨syncInv_send h1 dst (SMsgOK_congr h2 h3 hq), rfl, fun s => h3 s⟩

/-- The COLLECT branches of `process_message` after the phase-0 join,
over an arbitrary base state (the join result) and the original agent
count `N'`. -/
lemma collect_branches_inv {m' : SyncModelState} (hI : SyncInv m')
    {i s : ℕ} {P : Finset ℕ} (hi : i < m'.num_agents)
    (hP : P ⊆ Finset.range m'.num_agents)
    (N' : ℕ) (hN' : N' = m'.num_agents) :
    ∀ r, (if (getSA m' i).phase = 1 ∧ (s : ℤ) > (getSA m' i).highest then
        (sync_send (setSA m' i { getSA m' i with
            highest := (s : ℤ)
            id_set := P ∪ {i}
            count := (N' : ℤ) }) (ssucc m' i)
          (.collect s (P ∪ {i})), false)
      else if (s : ℤ) = (getSA m' i).highest ∧
          (i : ℤ) = (getSA m' i).highest then
        if ¬(P.card = N' ∧ (getSA m' i).phase = 1 ∧
            (getSA m' i).count = 0) then
          (setSA m' i { getSA m' i with leader := none }, true)
        else
          (sync_send (setSA m' i { getSA m' i with
              phase := 2
              id_set := P
              count := (N' : ℤ) }) (ssucc m' i) (.setup i P), false)
      else (m', false)) = r →
      SyncInv r.1 ∧ r.1.num_agents = m'.num_agents ∧
      ∀ t, (getSA r.1 t).N_rand = (getSA m' t).N_rand := by
  have hlen : i < m'.agents.length := by rw [hI.alen]; exact hi
  intro r hr
  by_cases h1 : (getSA m' i).phase = 1 ∧ (s : ℤ) > (getSA m' i).highest
  · rw [if_pos h1] at hr
    subst hr
    refine syncInv_modify_send hI i _ _ _ hi ?_ ?_ ?_ ?_ ?_ ?_ ?_ ?_ ?_
    · rfl
    · exact fun q h => h
    · rfl
    · exact fun h2 => absurd (show 2 ≤ (getSA m' i).phase from h2) (by omega)
    · exact fun _ => hI.nrand_neg (getSA m' i) (getSA_mem m' i hlen) (by omega)
    · exact fun h2 => absurd (show (getSA m' i).phase = 3 from h2) (by omega)
    · exact hI.phase_le (getSA m' i) (getSA_mem m' i hlen)
    · exact Or.inr (no_leader_of_low_phase hI hi (by omega))
    · show P ∪ {i} ⊆ Finset.range m'.num_agents
      exact Finset.union_subset hP
        (Finset.singleton_subset_iff.2 (Finset.mem_range.2 hi))
  · rw [if_neg h1] at hr
    by_cases h2 : (s : ℤ) = (getSA m' i).highest ∧
        (i : ℤ) = (getSA m' i).highest
    · rw [if_pos h2] at hr
      by_cases h3 : ¬(P.card = N' ∧ (getSA m' i).phase = 1 ∧
          (getSA m' i).count = 0)
      · rw [if_pos h3] at hr
        subst hr
        refine syncInv_modify hI i _ hi ?_ ?_ ?_ ?_ ?_ ?_ ?_ ?_
        · rfl
        · exact fun q h => h
        · rfl
        · exact fun h4 => hI.idset (getSA m' i) (getSA_mem m' i hlen) h4
        · exact fun h4 => hI.nrand_neg (getSA m' i) (getSA_mem m' i hlen) h4
        · exact fun h4 => hI.nrand_pos (getSA m' i) (getSA_mem m' i hlen) h4
        · exact hI.phase_le (getSA m' i) (getSA_mem m' i hlen)
        · exact Or.inr rfl
      · rw [if_neg h3] at hr
        rw [not_not] at h3
        subst hr
        have hPr : P = Finset.range m'.num_agents :=
          Finset.eq_of_subset_of_card_le hP
            (by rw [Finset.card_range]; omega)
        refine syncInv_modify_send hI i _ _ _ hi ?_ ?_ ?_ ?_ ?_ ?_ ?_ ?_ ?_
        · rfl
        · exact fun q h => h
        · rfl
        · exact fun _ => hPr
        · exact fun _ => hI.nrand_neg (getSA m' i) (getSA_mem m' i hlen) (by omega)
        · exact fun h4 => absurd (show (2 : ℕ) = 3 from h4) (by omega)
        · exact show (2 : ℕ) ≤ 3 by omega
        · exact Or.inr (no_leader_of_low_phase hI hi (by omega))
        · exact hPr
    · rw [if_neg h2] at hr
      subst hr
      exact ⟨hI, rfl, fun t => rfl⟩

/-- One message-loop iteration preserves the synchronous invariant and
never changes any agent's drawn `N_rand` or the agent count. -/
lemma process_message_inv {m : SyncModelState} (hI : SyncInv m) {i : ℕ}
    (hi : i < m.num_agents) {msg : SyncMsg} (hmsg : SMsgOK m msg) :
    SyncInv (process_message m i msg).1 ∧
    (process_message m i msg).1.num_agents = m.num_agents ∧
    ∀ s, (getSA (process_message m i msg).1 s).N_rand =
      (getSA m s).N_rand := by
  have hlen : i < m.agents.length := by rw [hI.alen]; exact hi
  suffices hS : ∀ r, process_message m i msg = r → SyncInv r.1 ∧
      r.1.num_agents = m.num_agents ∧
      ∀ s, (getSA r.1 s).N_rand = (getSA m s).N_rand from hS _ rfl
  intro r hr
  cases msg with
  | collect s P =>
    have hP : P ⊆ Finset.range m.num_agents := hmsg
    simp only [process_message] at hr
    by_cases h0 : (getSA m i).phase = 0
    · rw [if_pos h0] at hr
      have hJ := syncInv_modify_send hI i
        { getSA m i with
            phase := 1
            highest := (s : ℤ)
            id_set := P ∪ {i}
            count := (m.num_agents : ℤ) }
        (ssucc m i) (.collect s (P ∪ {i})) hi rfl (fun q h => h) rfl
        (fun h2 => absurd (show (2 : ℕ) ≤ 1 from h2) (by omega))
        (fun _ => hI.nrand_neg (getSA m i) (getSA_mem m i hlen) (by omega))
        (fun h2 => absurd (show (1 : ℕ) = 3 from h2) (by omega))
        (show (1 : ℕ) ≤ 3 by omega)
        (Or.inr (no_leader_of_low_phase hI hi (by omega)))
        (show P ∪ {i} ⊆ Finset.range m.num_agents from
          Finset.union_subset hP
            (Finset.singleton_subset_iff.2 (Finset.mem_range.2 hi)))
      obtain ⟨hJI, hJnum, hJnr⟩ := hJ
      obtain ⟨hrI, hrnum, hrnr⟩ := collect_branches_inv hJI
        (show i < _ from hi) (show P ⊆ _ from hP) m.num_agents rfl r hr
      exact ⟨hrI, hrnum, fun t => (hrnr t).trans (hJnr t)⟩
    · rw [if_neg h0] at hr
      exact collect_branches_inv hI hi hP m.num_agents rfl r hr
  | setup s P =>
    simp only [process_message] at hr
    by_cases h1 : 1 < (getSA m i).phase
    · rw [if_pos h1] at hr
      subst hr
      exact ⟨hI, rfl, fun t => rfl⟩
    · rw [if_neg h1] at hr
      by_cases h2 : ¬((s : ℤ) = (getSA m i).highest ∧
          (getSA m i).phase = 1 ∧ (getSA m i).count = 0)
      · rw [if_pos h2] at hr
        subst hr
        refine syncInv_modify hI i _ hi ?_ ?_ ?_ ?_ ?_ ?_ ?_ ?_
        · rfl
        · exact fun q h => h
        · rfl
        · exact fun h4 => hI.idset (getSA m i) (getSA_mem m i hlen) h4
        · exact fun h4 => hI.nrand_neg (getSA m i) (getSA_mem m i hlen) h4
        · exact fun h4 => hI.nrand_pos (getSA m i) (getSA_mem m i hlen) h4
        · exact hI.phase_le (getSA m i) (getSA_mem m i hlen)
        · exact Or.inr rfl
      · rw [if_neg h2] at hr
        rw [not_not] at h2
        subst hr
        have hPr : P = Finset.range m.num_agents := hmsg
        refine syncInv_modify_send hI i _ _ _ hi ?_ ?_ ?_ ?_ ?_ ?_ ?_ ?_ ?_
        · rfl
        · exact fun q h => h
        · rfl
        · exact fun _ => hPr
        · exact fun _ => hI.nrand_neg (getSA m i) (getSA_mem m i hlen)
            (by omega)
        · exact fun h4 => absurd (show (2 : ℕ) = 3 from h4) (by omega)
        · exact show (2 : ℕ) ≤ 3 by omega
        · exact Or.inr (no_leader_of_low_phase hI hi (by omega))
        · exact hPr
  | random s v =>
    have hv : (getSA m s).N_rand = (v : ℤ) ∧ s < m.num_agents := hmsg
    simp only [process_message] at hr
    by_cases hd : dlookup s (getSA m i).all_N_rand = none
    · rw [if_pos hd] at hr
      subst hr
      have hkeys : ∀ p ∈ (getSA m i).all_N_rand, p.1 ≠ s := dlookup_none hd
      have hdins : dinsert s v (getSA m i).all_N_rand =
          (getSA m i).all_N_rand ++ [(s, v)] := dinsert_of_not_key hkeys
      have hIs := syncInv_setSA hI i
        { getSA m i with all_N_rand := dinsert s v (getSA m i).all_N_rand }
        hi rfl
        (fun q h => mem_SyncSystemMsgs_of_inbox m i hlen h)
        (by
          intro p hp
          have hp2 : p ∈ (getSA m i).all_N_rand ++ [(s, v)] := by
            rw [← hdins]; exact hp
          rcases List.mem_append.1 hp2 with h | h
          · exact hI.entries _ (getSA_mem m i hlen) p h
          · rw [List.mem_singleton] at h
            subst h
            exact ⟨hv.1, hv.2⟩)
        (by
          show ((dinsert s v (getSA m i).all_N_rand).map
            (fun p => p.1)).Nodup
          rw [hdins]
          exact nodup_fst_append (hI.keys_nodup _ (getSA_mem m i hlen)) hkeys)
        (fun h4 => hI.idset (getSA m i) (getSA_mem m i hlen) h4)
        (fun h4 => hI.nrand_neg (getSA m i) (getSA_mem m i hlen) h4)
        (fun h4 => hI.nrand_pos (getSA m i) (getSA_mem m i hlen) h4)
        (hI.phase_le (getSA m i) (getSA_mem m i hlen))
        (fun l hl => hI.leader_ok (getSA m i) (getSA_mem m i hlen) l hl)
      have hnr2 := nrand_setSA (show ({ getSA m i with
        all_N_rand := dinsert s v (getSA m i).all_N_rand }).N_rand =
          (getSA m i).N_rand from rfl)
      refine ⟨syncInv_send hIs (ssucc m i) ?_, rfl, fun t => hnr2 t⟩
      exact SMsgOK_congr (show (setSA m i { getSA m i with
        all_N_rand := dinsert s v (getSA m i).all_N_rand }).num_agents =
          m.num_agents from rfl) hnr2 hmsg
    · rw [if_neg hd] at hr
      subst hr
      exact ⟨hI, rfl, fun t => rfl⟩

/-- Draining the inbox preserves the synchronous invariant and all drawn
values. -/
lemma process_inbox_inv {i : ℕ} : ∀ (msgs : List SyncMsg)
    (m : SyncModelState), SyncInv m → i < m.num_agents →
    (∀ msg ∈ msgs, SMsgOK m msg) →
    SyncInv (process_inbox m i msgs).1 ∧
    (process_inbox m i msgs).1.num_agents = m.num_agents ∧
    ∀ s, (getSA (process_inbox m i msgs).1 s).N_rand =
      (getSA m s).N_rand := by
  intro msgs
  induction msgs with
  | nil =>
    intro m hI _ _
    exact ⟨hI, rfl, fun s => rfl⟩
  | cons msg rest ih =>
    intro m hI hi hall
    have h1 := process_message_inv hI hi (hall msg (List.mem_cons_self msg rest))
    rw [process_inbox]
    by_cases h2 : (process_message m i msg).2
    · rw [if_pos h2]
      exact h1
    · rw [if_neg h2]
      have h3 := ih (process_message m i msg).1 h1.1
        (by rw [h1.2.1]; exact hi)
        (fun q hq => SMsgOK_congr h1.2.1 h1.2.2
          (hall q (List.mem_cons_of_mem msg hq)))
      exact ⟨h3.1, h3.2.1.trans h1.2.1, fun s => (h3.2.2 s).trans (h1.2.2 s)⟩


/-- The phase-2 block of `UniSyncAgent.step`: drawing the random
contribution preserves the invariant.  No earlier record or message can
reference this agent (its `N_rand` was still `-1`), and no agent can have
elected a leader yet. -/
lemma syncInv_draw {m : SyncModelState} (hI : SyncInv m) {i : ℕ}
    (hi : i < m.num_agents) (hph : (getSA m i).phase = 2)
    (a' : UniSyncAgentState) (v : ℕ)
    (hphase2 : a'.phase = 3)
    (hN2 : a'.N_rand = (v : ℤ))
    (hall2 : a'.all_N_rand = dinsert i v (getSA m i).all_N_rand)
    (hid2 : a'.id_set = (getSA m i).id_set)
    (hinb2 : a'.inbox = (getSA m i).inbox)
    (hlead2 : a'.leader = (getSA m i).leader) :
    SyncInv (sync_send (setSA m i a') (ssucc m i) (.random i v)) := by
  have hlen : i < m.agents.length := by rw [hI.alen]; exact hi
  have hbneg : (getSA m i).N_rand = -1 :=
    hI.nrand_neg _ (getSA_mem m i hlen) (by omega)
  have hnolead : ∀ a ∈ m.agents, a.leader = none := by
    intro a ha
    cases hla : a.leader with
    | none => rfl
    | some l =>
      have h2 := (hI.leader_ok a ha l hla).1 i hi
      rw [hbneg] at h2
      exact absurd h2 (by norm_num)
  have hnokey : ∀ a ∈ m.agents, ∀ p ∈ a.all_N_rand, p.1 ≠ i := by
    intro a ha p hp hpk
    have h2 := (hI.entries a ha p hp).1
    rw [hpk, hbneg] at h2
    have h3 : (0 : ℤ) ≤ (p.2 : ℤ) := Int.natCast_nonneg p.2
    omega
  have hmsg_ne : ∀ w : ℕ, SyncMsg.random i w ∉ SyncSystemMsgs m := by
    intro w hw
    have h2 := (hI.msgs _ hw).1
    rw [hbneg] at h2
    have h3 : (0 : ℤ) ≤ (w : ℤ) := Int.natCast_nonneg w
    omega
  have hdins : dinsert i v (getSA m i).all_N_rand =
      (getSA m i).all_N_rand ++ [(i, v)] :=
    dinsert_of_not_key (hnokey _ (getSA_mem m i hlen))
  have hgeti : getSA (setSA m i a') i = a' := getSA_setSA_self m i a' hlen
  have htrans : ∀ q ∈ SyncSystemMsgs m, SMsgOK (setSA m i a') q := by
    intro q hq2
    have h := hI.msgs q hq2
    cases q with
    | collect s P => exact h
    | setup s P => exact h
    | random s w =>
      by_cases hs : s = i
      · subst hs
        exact absurd hq2 (hmsg_ne w)
      · exact ⟨by rw [getSA_setSA_ne m i s a' hs]; exact h.1, h.2⟩
  have hmem2 : ∀ a, a ∈ (setSA m i a').agents → a = a' ∨ a ∈ m.agents := by
    intro a ha
    rcases List.mem_or_eq_of_mem_set ha with ha | ha
    · exact Or.inr ha
    · exact Or.inl ha
  refine syncInv_send ?_ (ssucc m i) ⟨by rw [hgeti, hN2], hi⟩
  refine ⟨?_, ?_, ?_, ?_, ?_, ?_, ?_, ?_, ?_, ?_, ?_⟩
  · show (m.agents.set i a').length = m.num_agents
    rw [List.length_set]; exact hI.alen
  · exact hI.clen
  · exact hI.npos
  · intro q hq2
    rcases mem_SyncSystemMsgs_setSA hq2 with h | h
    · rw [hinb2] at h
      exact htrans q (mem_SyncSystemMsgs_of_inbox m i hlen h)
    · exact htrans q h
  · intro a ha p hp
    rcases hmem2 a ha with rfl | ha
    · rw [hall2] at hp
      have hp2 : p ∈ (getSA m i).all_N_rand ++ [(i, v)] := by
        rw [← hdins]; exact hp
      rcases List.mem_append.1 hp2 with h | h
      · have h2 := hI.entries _ (getSA_mem m i hlen) p h
        have hne := hnokey _ (getSA_mem m i hlen) p h
        exact ⟨by rw [getSA_setSA_ne m i p.1 a hne]; exact h2.1, h2.2⟩
      · rw [List.mem_singleton] at h
        subst h
        exact ⟨by rw [hgeti, hN2], hi⟩
    · have h2 := hI.entries a ha p hp
      have hne := hnokey a ha p hp
      exact ⟨by rw [getSA_setSA_ne m i p.1 a' hne]; exact h2.1, h2.2⟩
  · intro a ha
    rcases hmem2 a ha with rfl | ha
    · rw [hall2, hdins]
      exact nodup_fst_append (hI.keys_nodup _ (getSA_mem m i hlen))
        (hnokey _ (getSA_mem m i hlen))
    · exact hI.keys_nodup a ha
  · intro a ha h2
    rcases hmem2 a ha with rfl | ha
    · rw [hid2]
      exact hI.idset _ (getSA_mem m i hlen) (by omega)
    · exact hI.idset a ha h2
  · intro a ha h2
    rcases hmem2 a ha with rfl | ha
    · rw [hphase2] at h2
      exact absurd h2 (by omega)
    · exact hI.nrand_neg a ha h2
  · intro a ha h2
    rcases hmem2 a ha with rfl | ha
    · rw [hN2]
      exact Int.natCast_nonneg v
    · exact hI.nrand_pos a ha h2
  · intro a ha
    rcases hmem2 a ha with rfl | ha
    · rw [hphase2]
    · exact hI.phase_le a ha
  · intro a ha l hl
    rcases hmem2 a ha with rfl | ha
    · rw [hlead2, hnolead _ (getSA_mem m i hlen)] at hl
      cases hl
    · rw [hnolead a ha] at hl
      cases hl

/-- The phase-3 block of `UniSyncAgent.step`: electing the leader from a
complete table of contributions preserves the invariant, because the
recorded table forces the election rule's global value. -/
lemma syncInv_finalize {m : SyncModelState} (hI : SyncInv m) {i : ℕ}
    (hi : i < m.num_agents) (hph : (getSA m i).phase = 3)
    (hlen2 : (getSA m i).all_N_rand.length = m.num_agents)
    {idx : ℕ}
    (hidx : idx = ((getSA m i).all_N_rand.map (fun p => p.2)).sum %
      (getSA m i).all_N_rand.length)
    (hlt : idx < (sort_desc (getSA m i).id_set).length) :
    SyncInv (setSA m i { getSA m i with
      leader := some ((sort_desc (getSA m i).id_set).get ⟨idx, hlt⟩) }) := by
  have hlen : i < m.agents.length := by rw [hI.alen]; exact hi
  have hbmem := getSA_mem m i hlen
  have hid : (getSA m i).id_set = Finset.range m.num_agents :=
    hI.idset _ hbmem (by omega)
  have hksnd : ((getSA m i).all_N_rand.map (fun p => p.1)).Nodup :=
    hI.keys_nodup _ hbmem
  have hkslt : ∀ k ∈ (getSA m i).all_N_rand.map (fun p => p.1),
      k < m.num_agents := by
    intro k hk
    rw [List.mem_map] at hk
    obtain ⟨p, hp, rfl⟩ := hk
    exact (hI.entries _ hbmem p hp).2
  have hkslen : ((getSA m i).all_N_rand.map (fun p => p.1)).length =
      m.num_agents := by
    rw [List.length_map]; exact hlen2
  have hfin : ((getSA m i).all_N_rand.map (fun p => p.1)).toFinset =
      Finset.range m.num_agents := by
    refine Finset.eq_of_subset_of_card_le ?_ ?_
    · intro k hk
      exact Finset.mem_range.2 (hkslt k (List.mem_toFinset.1 hk))
    · rw [Finset.card_range, List.toFinset_card_of_nodup hksnd, hkslen]
  have hcover : ∀ s, s < m.num_agents →
      ∃ p ∈ (getSA m i).all_N_rand, p.1 = s := by
    intro s hs
    have h1 : s ∈ ((getSA m i).all_N_rand.map (fun p => p.1)).toFinset := by
      rw [hfin]
      exact Finset.mem_range.2 hs
    rw [List.mem_toFinset, List.mem_map] at h1
    obtain ⟨p, hp, hps⟩ := h1
    exact ⟨p, hp, hps⟩
  have h0le : ∀ s, s < m.num_agents → 0 ≤ (getSA m s).N_rand := by
    intro s hs
    obtain ⟨p, hp, hps⟩ := hcover s hs
    rw [← hps, (hI.entries _ hbmem p hp).1]
    exact Int.natCast_nonneg p.2
  have hsum : ((getSA m i).all_N_rand.map (fun p => p.2)).sum =
      (Finset.range m.num_agents).sum
        (fun s => ((getSA m s).N_rand).toNat) := by
    have h1 : (getSA m i).all_N_rand.map (fun p => p.2) =
        (getSA m i).all_N_rand.map
          (fun p => ((getSA m p.1).N_rand).toNat) := by
      refine List.map_congr_left ?_
      intro p hp
      rw [(hI.entries _ hbmem p hp).1]
      omega
    have h2 : (getSA m i).all_N_rand.map
        (fun p => ((getSA m p.1).N_rand).toNat) =
        ((getSA m i).all_N_rand.map (fun p => p.1)).map
          (fun s => ((getSA m s).N_rand).toNat) := by
      rw [List.map_map]
      rfl
    rw [h1, h2, ← List.sum_toFinset _ hksnd, hfin]
  have hgetd : (sort_desc (getSA m i).id_set).get ⟨idx, hlt⟩ =
      (sort_desc (getSA m i).id_set).getD idx 0 := by
    rw [List.getD_eq_getElem?_getD, List.getElem?_eq_getElem hlt]
    rfl
  have hrule : (sort_desc (getSA m i).id_set).get ⟨idx, hlt⟩ =
      leaderRule m := by
    rw [hgetd, hidx, hlen2, hsum, hid, leaderRule]
  refine syncInv_setSA hI i _ hi ?_ ?_ ?_ ?_ ?_ ?_ ?_ ?_ ?_
  · rfl
  · exact fun q h => mem_SyncSystemMsgs_of_inbox m i hlen h
  · exact hI.entries (getSA m i) hbmem
  · exact hI.keys_nodup (getSA m i) hbmem
  · exact fun h => hI.idset (getSA m i) hbmem h
  · exact fun h => hI.nrand_neg (getSA m i) hbmem h
  · exact fun h => hI.nrand_pos (getSA m i) hbmem h
  · exact hI.phase_le (getSA m i) hbmem
  · intro l hl
    have hlid := Option.some.inj hl
    refine ⟨h0le, ?_, hid⟩
    rw [← hlid]
    exact hrule

/-- One synchronous agent step preserves the invariant. -/
lemma sync_agent_step_inv {m : SyncModelState} {i : ℕ} {o : List ℕ}
    {m' : SyncModelState} {o' : List ℕ} (hI : SyncInv m)
    (hi : i < m.num_agents)
    (hok : sync_agent_step m i o = .ok (m', o')) :
    SyncInv m' ∧ m'.num_agents = m.num_agents := by
  have hlen : i < m.agents.length := by rw [hI.alen]; exact hi
  rw [sync_agent_step] at hok
  simp only [] at hok
  split at hok
  · have h2 := ok_pair_fst hok
    subst h2
    exact ⟨hI, rfl⟩
  · set A0 : UniSyncAgentState := { getSA m i with
      count := if 0 < (getSA m i).phase then (getSA m i).count - 1
        else (getSA m i).count } with hA0
    set M1 : SyncModelState := setSA m i { A0 with inbox := [] } with hM1
    set R : SyncModelState × Bool := process_inbox M1 i A0.inbox with hR0
    have hm1 := syncInv_modify hI i { A0 with inbox := [] } hi rfl
      (fun q h => absurd h (List.not_mem_nil q)) rfl
      (fun h => hI.idset (getSA m i) (getSA_mem m i hlen) h)
      (fun h => hI.nrand_neg (getSA m i) (getSA_mem m i hlen) h)
      (fun h => hI.nrand_pos (getSA m i) (getSA_mem m i hlen) h)
      (hI.phase_le (getSA m i) (getSA_mem m i hlen))
      (Or.inl ⟨rfl, rfl⟩)
    obtain ⟨hm1I, hm1num, hm1nr⟩ := hm1
    have hinb : A0.inbox = (getSA m i).inbox := rfl
    have hmsgs : ∀ q ∈ A0.inbox, SMsgOK M1 q := by
      intro q h
      rw [hinb] at h
      exact SMsgOK_congr hm1num hm1nr
        (hI.msgs q (mem_SyncSystemMsgs_of_inbox m i hlen h))
    have hR := process_inbox_inv A0.inbox M1 hm1I
      (by rw [hm1num]; exact hi) hmsgs
    rw [← hR0] at hR
    obtain ⟨hRI, hRnum, hRnr⟩ := hR
    have hRnum2 : R.1.num_agents = m.num_agents := hRnum.trans hm1num
    have hRnr2 : ∀ s, (getSA R.1 s).N_rand = (getSA m s).N_rand :=
      fun s => (hRnr s).trans (hm1nr s)
    have hib : i < R.1.num_agents := by rw [hRnum2]; exact hi
    have hibl : i < R.1.agents.length := by rw [hRI.alen]; exact hib
    split at hok
    · have h2 := ok_pair_fst hok
      subst h2
      exact ⟨hRI, hRnum2⟩
    · split at hok
      · -- draw block
        rename_i hcond
        have h2 := ok_pair_fst hok
        subst h2
        refine ⟨syncInv_draw hRI hib hcond.1 _ _ rfl rfl rfl rfl rfl rfl,
          hRnum2⟩
      · split at hok
        · -- finalize phase
          rename_i hcond3
          split at hok
          · -- punish: table incomplete
            have h2 := ok_pair_fst hok
            subst h2
            refine ⟨(syncInv_modify hRI i
              { getSA R.1 i with leader := none } hib rfl (fun q h => h) rfl
              (fun h => hRI.idset (getSA R.1 i) (getSA_mem R.1 i hibl) h)
              (fun h => hRI.nrand_neg (getSA R.1 i) (getSA_mem R.1 i hibl) h)
              (fun h => hRI.nrand_pos (getSA R.1 i) (getSA_mem R.1 i hibl) h)
              (hRI.phase_le (getSA R.1 i) (getSA_mem R.1 i hibl))
              (Or.inr rfl)).1, hRnum2⟩
          · -- elect
            split at hok
            · have h2 := ok_pair_fst hok
              subst h2
              rename_i hne hlt
              rw [not_not] at hne
              refine ⟨syncInv_finalize hRI hib hcond3.1
                (by rw [hRnum2]; exact hne) rfl hlt, hRnum2⟩
            · cases hok
        · -- neither block
          have h2 := ok_pair_fst hok
          subst h2
          exact ⟨hRI, hRnum2⟩

lemma sync_step_agents_inv : ∀ (L : List ℕ) (m : SyncModelState) (o : List ℕ),
    SyncInv m → (∀ i ∈ L, i < m.num_agents) →
    ∀ {r : SyncModelState × List ℕ},
    sync_step_agents L m o = .ok r →
    SyncInv r.1 ∧ r.1.num_agents = m.num_agents := by
  intro L
  induction L with
  | nil =>
    intro m o hI _ r hok
    rw [sync_step_agents] at hok
    have h2 := Except.ok.inj hok
    rw [← h2]
    exact ⟨hI, rfl⟩
  | cons i is ih =>
    intro m o hI hL r hok
    rw [sync_step_agents] at hok
    rcases hstep : sync_agent_step m i o with e | r1
    · rw [hstep] at hok
      cases hok
    · rw [hstep] at hok
      have hstep2 : sync_agent_step m i o = .ok (r1.1, r1.2) := by
        rw [hstep]
      obtain ⟨h1, hnum1⟩ := sync_agent_step_inv hI
        (hL i (List.mem_cons_self i is)) hstep2
      obtain ⟨h2, hnum2⟩ := ih r1.1 r1.2 h1
        (fun j hj => by rw [hnum1]; exact hL j (List.mem_cons_of_mem i hj)) hok
      exact ⟨h2, hnum2.trans hnum1⟩

/-- Delivering the buffered round and clearing the buffer preserves the
invariant. -/
lemma deliver_round_inv {m : SyncModelState} (hI : SyncInv m) :
    SyncInv (deliver_round m) := by
  have hnum : (deliver_round m).num_agents = m.num_agents := rfl
  have halen : (deliver_round m).agents.length = m.agents.length := by
    show (m.agents.enum.map _).length = _
    rw [List.length_map, List.enum_length]
  have hmemD : ∀ b ∈ (deliver_round m).agents, ∃ j a, a ∈ m.agents ∧
      m.agents[j]? = some a ∧ j < m.current_round_messages.length ∧
      b = { a with inbox := a.inbox ++ m.current_round_messages.getD j [] } := by
    intro b hb
    have hb2 : b ∈ m.agents.enum.map (fun p =>
        { p.2 with inbox := p.2.inbox ++ m.current_round_messages.getD p.1 [] }) := hb
    rw [List.mem_map] at hb2
    obtain ⟨p, hp, rfl⟩ := hb2
    have hpg := List.mem_enum_iff_getElem?.mp hp
    have hplt : p.1 < m.agents.length := by
      by_contra hc
      rw [List.getElem?_eq_none (by omega)] at hpg
      cases hpg
    refine ⟨p.1, p.2, List.getElem?_mem hpg, hpg, ?_, rfl⟩
    rw [hI.clen, ← hI.alen]
    exact hplt
  have hgetD : ∀ s, ∃ ib, getSA (deliver_round m) s =
      { getSA m s with inbox := ib } := by
    intro s
    by_cases hs : s < m.agents.length
    · refine ⟨(getSA m s).inbox ++ m.current_round_messages.getD s [], ?_⟩
      show ((m.agents.enum.map _).getD s default) = _
      rw [List.getD_eq_getElem?_getD, List.getElem?_map,
        List.getElem?_enum, List.getElem?_eq_getElem hs]
      show { m.agents[s] with
          inbox := m.agents[s].inbox ++ m.current_round_messages.getD s [] } = _
      rw [getSA_eq_getElem m s hs]
    · refine ⟨[], ?_⟩
      show ((m.agents.enum.map _).getD s default) = _
      rw [List.getD_eq_getElem?_getD, List.getElem?_map,
        List.getElem?_enum, List.getElem?_eq_none (by omega)]
      show (default : UniSyncAgentState) = _
      rw [getSA, List.getD_eq_getElem?_getD, List.getElem?_eq_none (by omega)]
      rfl
  have hnr : ∀ s, (getSA (deliver_round m) s).N_rand =
      (getSA m s).N_rand := by
    intro s
    obtain ⟨ib, hib⟩ := hgetD s
    rw [hib]
  have hmsgsub : ∀ q ∈ SyncSystemMsgs (deliver_round m),
      q ∈ SyncSystemMsgs m := by
    intro q hq
    rw [SyncSystemMsgs] at hq
    rcases List.mem_append.1 hq with h | h
    · rw [List.mem_flatten] at h
      obtain ⟨L, hL, hqL⟩ := h
      have hL2 : L ∈ m.current_round_messages.map (fun _ => ([] : List SyncMsg)) := hL
      rw [List.mem_map] at hL2
      obtain ⟨_, _, rfl⟩ := hL2
      exact absurd hqL (List.not_mem_nil q)
    · rw [List.mem_flatten] at h
      obtain ⟨L, hL, hqL⟩ := h
      rw [List.mem_map] at hL
      obtain ⟨b, hb, rfl⟩ := hL
      obtain ⟨j, a, ha, hja, hjlt, rfl⟩ := hmemD b hb
      have hqL2 : q ∈ a.inbox ++ m.current_round_messages.getD j [] := hqL
      rcases List.mem_append.1 hqL2 with h2 | h2
      · rw [SyncSystemMsgs]
        refine List.mem_append.2 (Or.inr ?_)
        rw [List.mem_flatten]
        exact ⟨a.inbox, List.mem_map.2 ⟨a, ha, rfl⟩, h2⟩
      · rw [SyncSystemMsgs]
        refine List.mem_append.2 (Or.inl ?_)
        rw [List.mem_flatten]
        refine ⟨m.current_round_messages.getD j [], ?_, h2⟩
        rw [List.getD_eq_getElem?_getD, List.getElem?_eq_getElem hjlt]
        exact List.getElem_mem hjlt
  refine ⟨?_, ?_, ?_, ?_, ?_, ?_, ?_, ?_, ?_, ?_, ?_⟩
  · rw [halen, hI.alen]
    rfl
  · show (m.current_round_messages.map _).length = _
    rw [List.length_map]
    exact hI.clen
  · exact hI.npos
  · intro q hq
    exact SMsgOK_congr hnum hnr (hI.msgs q (hmsgsub q hq))
  · intro b hb p hp
    obtain ⟨j, a, ha, hja, hjlt, rfl⟩ := hmemD b hb
    have h2 := hI.entries a ha p hp
    exact ⟨(hnr p.1).trans h2.1, h2.2⟩
  · intro b hb
    obtain ⟨j, a, ha, hja, hjlt, rfl⟩ := hmemD b hb
    exact hI.keys_nodup a ha
  · intro b hb hph
    obtain ⟨j, a, ha, hja, hjlt, rfl⟩ := hmemD b hb
    exact hI.idset a ha hph
  · intro b hb hph
    obtain ⟨j, a, ha, hja, hjlt, rfl⟩ := hmemD b hb
    exact hI.nrand_neg a ha hph
  · intro b hb hph
    obtain ⟨j, a, ha, hja, hjlt, rfl⟩ := hmemD b hb
    exact hI.nrand_pos a ha hph
  · intro b hb
    obtain ⟨j, a, ha, hja, hjlt, rfl⟩ := hmemD b hb
    exact hI.phase_le a ha
  · intro b hb l hl
    obtain ⟨j, a, ha, hja, hjlt, rfl⟩ := hmemD b hb
    have h2 := hI.leader_ok a ha l hl
    refine ⟨fun t ht => ?_, ?_, h2.2.2⟩
    · rw [hnr t]
      exact h2.1 t ht
    · rw [leaderRule_congr hnum hnr]
      exact h2.2.1

lemma uni_sync_model_step_inv {m m' : SyncModelState} (hI : SyncInv m)
    {o : List ℕ} (hok : uni_sync_model_step o m = .ok m') :
    SyncInv m' ∧ m'.num_agents = m.num_agents := by
  rw [uni_sync_model_step] at hok
  rcases hstep : sync_step_agents (List.range (deliver_round m).num_agents)
      (deliver_round m) o with e | r
  · rw [hstep] at hok
    cases hok
  · rw [hstep] at hok
    have h2 := Except.ok.inj hok
    obtain ⟨hrI, hrnum⟩ := sync_step_agents_inv _ _ o (deliver_round_inv hI)
      (fun j hj => List.mem_range.1 hj) hstep
    rw [← h2]
    exact ⟨hrI, hrnum⟩

lemma syncInv_init (N starter : ℕ) (hN : 1 ≤ N) (hs : starter < N) :
    SyncInv (mk_uni_sync_model N starter) := by
  have hbase : ∀ mb : SyncModelState, mb.num_agents = N →
      mb.agents = (List.range N).map (fun _ => UniSyncAgentState.mkInit) →
      mb.current_round_messages =
        (List.range N).map (fun _ => ([] : List SyncMsg)) →
      SyncInv mb := by
    intro mb hn ha hc
    have hmemB : ∀ a ∈ mb.agents, a = UniSyncAgentState.mkInit := by
      intro a ha2
      rw [ha, List.mem_map] at ha2
      obtain ⟨_, _, rfl⟩ := ha2
      rfl
    refine ⟨?_, ?_, ?_, ?_, ?_, ?_, ?_, ?_, ?_, ?_, ?_⟩
    · rw [ha, hn, List.length_map, List.length_range]
    · rw [hc, hn, List.length_map, List.length_range]
    · rw [hn]; exact hN
    · intro q hq
      rw [SyncSystemMsgs] at hq
      rcases List.mem_append.1 hq with h | h
      · rw [hc, List.mem_flatten] at h
        obtain ⟨L, hL, hqL⟩ := h
        rw [List.mem_map] at hL
        obtain ⟨_, _, rfl⟩ := hL
        exact absurd hqL (List.not_mem_nil q)
      · rw [List.mem_flatten] at h
        obtain ⟨L, hL, hqL⟩ := h
        rw [List.mem_map] at hL
        obtain ⟨b, hb, rfl⟩ := hL
        rw [hmemB b hb] at hqL
        exact absurd hqL (List.not_mem_nil q)
    · intro a ha2 p hp
      rw [hmemB a ha2] at hp
      exact absurd hp (List.not_mem_nil p)
    · intro a ha2
      rw [hmemB a ha2]
      exact List.nodup_nil
    · intro a ha2 hph
      rw [hmemB a ha2] at hph
      exact absurd hph (by decide)
    · intro a ha2 _
      rw [hmemB a ha2]
      rfl
    · intro a ha2 hph
      rw [hmemB a ha2] at hph
      exact absurd hph (by decide)
    · intro a ha2
      rw [hmemB a ha2]
      decide
    · intro a ha2 l hl
      rw [hmemB a ha2] at hl
      cases hl
  have hmain : ∀ mb : SyncModelState, mb.num_agents = N →
      mb.agents = (List.range N).map (fun _ => UniSyncAgentState.mkInit) →
      mb.current_round_messages =
        (List.range N).map (fun _ => ([] : List SyncMsg)) →
      SyncInv (sync_start_protocol mb starter) := by
    intro mb hn ha hc
    have hbI := hbase mb hn ha hc
    have hget : getSA mb starter = UniSyncAgentState.mkInit := by
      rw [getSA, List.getD_eq_getElem?_getD, ha, List.getElem?_map,
        List.getElem?_range hs]
      rfl
    rw [sync_start_protocol]
    rw [hget]
    rw [if_neg (by decide)]
    refine (syncInv_modify_send hbI starter _ _ _ (by rw [hn]; exact hs)
      ?_ ?_ ?_ ?_ ?_ ?_ ?_ ?_ ?_).1
    · rw [hget]
    · exact fun q h => absurd h (List.not_mem_nil q)
    · rw [hget]
    · exact fun h2 => absurd (show 2 ≤ (1 : ℕ) from h2) (by omega)
    · exact fun _ => rfl
    · exact fun h2 => absurd (show (1 : ℕ) = 3 from h2) (by omega)
    · exact show (1 : ℕ) ≤ 3 by omega
    · exact Or.inr rfl
    · show ({starter} : Finset ℕ) ⊆ Finset.range mb.num_agents
      rw [hn]
      exact Finset.singleton_subset_iff.2 (Finset.mem_range.2 hs)
  rw [mk_uni_sync_model]
  exact hmain _ rfl rfl rfl

theorem syncInv_reachable {m : SyncModelState} (h : SyncReachable m) :
    SyncInv m := by
  induction h with
  | init N starter hN hs => exact syncInv_init N starter hN hs
  | step m m' o hR hok ih =>
    exact (uni_sync_model_step_inv ih hok).1

lemma reveal_append_num (m : AsyncModelState) (i : ℕ)
    (pairs : List (ℕ × ℕ)) (o : List ℕ) :
    (reveal_append m i pairs o).1.num_agents = m.num_agents := by
  suffices hS : ∀ r, reveal_append m i pairs o = r →
      r.1.num_agents = m.num_agents from hS _ rfl
  intro r hr
  rw [reveal_append] at hr
  split at hr
  · simp only [] at hr
    split at hr
    · subst hr; rfl
    · split at hr
      · subst hr; rfl
      · subst hr; rfl
  · subst hr; rfl

lemma reveal_rest_choose_err {m : AsyncModelState} {i snd : ℕ}
    {ids : Finset ℕ} {pairs : List (ℕ × ℕ)} {o : List ℕ} {lid : ℕ}
    (h : reveal_rest m i snd ids pairs o = .error (.chooseAttributeError lid)) :
    lid = (sort_desc ids).getD
      ((((reveal_append m i pairs o).2.1.map (fun pr => pr.2)).sum) %
        m.num_agents) 0 := by
  have hgetd : ∀ (n : ℕ) (hn : n < (sort_desc ids).length),
      (sort_desc ids).get ⟨n, hn⟩ = (sort_desc ids).getD n 0 := by
    intro n hn
    rw [List.getD_eq_getElem?_getD, List.getElem?_eq_getElem hn]
    rfl
  rw [reveal_rest] at h
  simp only [] at h
  split at h
  · split at h
    · rename_i hlt
      have h2 := Except.error.inj h
      have h3 := StepError.chooseAttributeError.inj h2
      have hnum : (send_to_successor (reveal_append m i pairs o).1 i
          (AsyncPayload.reveal snd ids (reveal_append m i pairs o).2.1
            (some i)) (reveal_append m i pairs o).2.2).1.num_agents =
          m.num_agents := reveal_append_num m i pairs o
      rw [← h3, hgetd]
      rw [hnum]
    · have h2 := Except.error.inj h
      cases h2
  · cases h

lemma syncRun2_reach : ∀ k ≤ 7, SyncReachable (syncRun2 k) := by
  have h0 : SyncReachable (syncRun2 0) :=
    SyncReachable.init 2 0 (by norm_num) (by norm_num)
  have hstep : ∀ k < 7, uni_sync_model_step [] (syncRun2 k) =
      .ok (syncRun2 (k + 1)) := by decide
  intro k hk
  induction k with
  | zero => exact h0
  | succ n ih =>
    exact SyncReachable.step _ _ [] (ih (by omega)) (hstep n (by omega))

/-- C5: the election rule and agreement.  Synchronously, on every reachable
state any two agents that have set a leader computed it by the same rule —
the descending sort of their (full) id set indexed by the sum of the drawn
contributions modulo the number of agents — so they agree.  Asynchronously
no agent ever sets a leader (third conjunct), and the value the REVEAL
finalization is about to broadcast when it crashes is computed by exactly
this rule over the appended pairs (second conjunct). -/
theorem c5_leader_rule_agreement :
    (∀ m, SyncReachable m → ∀ i j li lj,
      (getSA m i).leader = some li → (getSA m j).leader = some lj →
      i < m.num_agents → j < m.num_agents →
      li = (sort_desc (getSA m i).id_set).getD
        (((Finset.range m.num_agents).sum
          (fun s => ((getSA m s).N_rand).toNat)) % m.num_agents) 0 ∧
      (getSA m i).id_set = Finset.range m.num_agents ∧
      li = lj) ∧
    (∀ (m : AsyncModelState) (i snd : ℕ) (ids : Finset ℕ)
      (pairs : List (ℕ × ℕ)) (la : Option ℕ) (o : List ℕ) (lid : ℕ),
      on_reveal m i snd ids pairs la o = .error (.chooseAttributeError lid) →
      lid = (sort_desc ids).getD
        ((((reveal_append m i pairs o).2.1.map (fun pr => pr.2)).sum) %
          m.num_agents) 0) ∧
    (∀ m, AsyncReachable m → ∀ a ∈ m.agents, a.leader = none) := by
  refine ⟨?_, ?_, ?_⟩
  · intro m h i j li lj hli hlj hi hj
    have I := syncInv_reachable h
    have hgi := getSA_mem m i (by rw [I.alen]; exact hi)
    have hgj := getSA_mem m j (by rw [I.alen]; exact hj)
    have t1 := I.leader_ok _ hgi li hli
    have t2 := I.leader_ok _ hgj lj hlj
    refine ⟨?_, t1.2.2, t1.2.1.trans t2.2.1.symm⟩
    rw [t1.2.2, t1.2.1, leaderRule]
  · intro m i snd ids pairs la o lid h
    rw [on_reveal] at h
    split at h
    · cases h
    · split at h
      · cases h
      · split at h
        · split at h
          · cases h
          · split at h
            · cases h
            · exact reveal_rest_choose_err h
        · exact reveal_rest_choose_err h
  · intro m h a ha
    exact (asyncInv_reachable h).leaders a ha

theorem c5_witness :
    (getSA (syncRun2 7) 0).leader = some 1 ∧
    (getSA (syncRun2 7) 1).leader = some 1 ∧
    (1 : ℕ) = (sort_desc (getSA (syncRun2 7) 0).id_set).getD
      (((Finset.range (syncRun2 7).num_agents).sum
        (fun s => ((getSA (syncRun2 7) s).N_rand).toNat)) %
        (syncRun2 7).num_agents) 0 ∧
    on_reveal (mk_uni_async_model 1 0 ∅ 1 []) 0 0 {0} [] none [] =
      .error (.chooseAttributeError 0) ∧
    (0 : ℕ) = (sort_desc ({0} : Finset ℕ)).getD
      ((((reveal_append (mk_uni_async_model 1 0 ∅ 1 []) 0 [] []).2.1.map
        (fun pr => pr.2)).sum) %
        (mk_uni_async_model 1 0 ∅ 1 []).num_agents) 0 := by
  have hrev : on_reveal (mk_uni_async_model 1 0 ∅ 1 []) 0 0 {0} [] none [] =
      .error (.chooseAttributeError 0) := by decide
  refine ⟨by decide, by decide, ?_, hrev, ?_⟩
  · exact (c5_leader_rule_agreement.1 _ (syncRun2_reach 7 (by norm_num))
      0 1 1 1 (by decide) (by decide) (by decide) (by decide)).1
  · exact c5_leader_rule_agreement.2.1 _ 0 0 {0} [] none [] 0 hrev
